import Mathlib

/-
Verification of the test-data-generation pipeline: a shallow embedding of
the repository's core routines (topological sequencing of tables by
foreign-key dependencies, primary/foreign-key injection, NDJSON response
reassembly, balanced-bracket extraction, JSON cleaning/repair, and the
Selenium-script parsing wrapper), together with theorems settling the
stated properties.

Python strings are modelled as Lean `String`/`List Char`; Python dicts as
insertion-ordered association lists with update-in-place semantics
(matching CPython dict behaviour); Python sets as insertion-ordered
duplicate-free lists; JSON numbers as exact rationals (`Rat`).  `random`
is modelled by an explicit stream of natural numbers, `random.choice xs`
picking `xs[r % len xs]`.  Fallible code returns `Except`/`Option`.
-/

namespace GenData

/-- JSON-like dynamic values, as produced by Python `json.loads`.
Numbers are kept as exact rationals (IEEE rounding is irrelevant to every
property below); objects are insertion-ordered association lists with
unique keys (duplicate keys collapse to the last value, at the position of
the first occurrence, exactly as CPython dicts do). -/
inductive Value where
  | null : Value
  | bool (b : Bool) : Value
  | num (q : Rat) : Value
  | str (s : String) : Value
  | arr (xs : List Value) : Value
  | obj (kvs : List (String × Value)) : Value
deriving Repr

/-- Python dict update: if the key is present, replace its value in place
(keeping its position); otherwise append the binding at the end. -/
def dictSet (kvs : List (String × Value)) (k : String) (v : Value) :
    List (String × Value) :=
  match kvs with
  | [] => [(k, v)]
  | (k0, v0) :: rest =>
      if k0 = k then (k0, v) :: rest else (k0, v0) :: dictSet rest k v

/-- Python `d.get(k)` on an association list. -/
def dictGet (kvs : List (String × Value)) (k : String) : Option Value :=
  match kvs with
  | [] => none
  | (k0, v0) :: rest => if k0 = k then some v0 else dictGet rest k

/-- Python `k in d`. -/
def dictHas (kvs : List (String × Value)) (k : String) : Bool :=
  (dictGet kvs k).isSome

/-- Characters treated as whitespace by `str.strip()` (ASCII fragment). -/
def isPyWs (c : Char) : Bool :=
  c = ' ' || c = '\t' || c = '\n' || c = '\x0d' || c = '\x0b' || c = '\x0c'

/-- Python `str.strip()`. -/
def pyStrip (s : String) : String :=
  ((s.toList.dropWhile isPyWs).reverse.dropWhile isPyWs).reverse.asString

/-- Python `str.splitlines()` restricted to the line breaks that occur in
this code base: `\n`, `\r`, `\r\n`.  A trailing line break yields no empty
final line, exactly as in Python. -/
def splitLinesAux : List Char → List Char → List String
  | [], acc => if acc.isEmpty then [] else [acc.reverse.asString]
  | '\x0d' :: '\n' :: rest, acc => acc.reverse.asString :: splitLinesAux rest []
  | '\n' :: rest, acc => acc.reverse.asString :: splitLinesAux rest []
  | '\x0d' :: rest, acc => acc.reverse.asString :: splitLinesAux rest []
  | c :: rest, acc => splitLinesAux rest (c :: acc)

def pySplitlines (s : String) : List String :=
  splitLinesAux s.toList []

/-- JSON whitespace accepted between tokens by `json.loads`. -/
def isJsonWs (c : Char) : Bool :=
  c = ' ' || c = '\t' || c = '\n' || c = '\x0d'

def skipWs (cs : List Char) : List Char := cs.dropWhile isJsonWs

def isDigit (c : Char) : Bool := '0' ≤ c && c ≤ '9'

def digitVal (c : Char) : Nat := c.toNat - '0'.toNat

def digitsToNat (ds : List Char) : Nat :=
  ds.foldl (fun acc d => acc * 10 + digitVal d) 0

/-- Decode one JSON string escape character (the char after the
backslash); `\uXXXX` is handled by the caller. -/
def unescapeChar (c : Char) : Option Char :=
  if c = '"' then some '"'
  else if c = '\\' then some '\\'
  else if c = '/' then some '/'
  else if c = 'b' then some '\x08'
  else if c = 'f' then some '\x0c'
  else if c = 'n' then some '\n'
  else if c = 'r' then some '\x0d'
  else if c = 't' then some '\t'
  else none

def hexVal (c : Char) : Option Nat :=
  match c.toNat with
  | n =>
    if 48 ≤ n && n ≤ 57 then some (n - 48)
    else if 97 ≤ n && n ≤ 102 then some (n - 87)
    else if 65 ≤ n && n ≤ 70 then some (n - 55)
    else none

/-- Parse the body of a JSON string after the opening quote; returns the
decoded characters and the rest after the closing quote.  Raw control
characters below 0x20 are rejected, as by strict `json.loads`.
(Surrogate-pair recombination of consecutive `\uXXXX` escapes is not
modelled; no input in this development uses it.) -/
def parseStringBody : List Char → List Char → Except String (String × List Char)
  | [], _ => .error "Unterminated string"
  | '"' :: rest, acc => .ok (acc.reverse.asString, rest)
  | '\\' :: [], _ => .error "Unterminated string escape"
  | '\\' :: e :: rest, acc =>
      if e = 'u' then
        match rest with
        | h1 :: h2 :: h3 :: h4 :: rest2 =>
            match hexVal h1, hexVal h2, hexVal h3, hexVal h4 with
            | some a, some b, some c, some d =>
                let n := ((a * 16 + b) * 16 + c) * 16 + d
                if n < 1114112 then
                  parseStringBody rest2 (Char.ofNat n :: acc)
                else .error "Invalid unicode escape"
            | _, _, _, _ => .error "Invalid unicode escape"
        | _ => .error "Invalid unicode escape"
      else
        match unescapeChar e with
        | some c => parseStringBody rest (c :: acc)
        | none => .error "Invalid escape"
  | c :: rest, acc =>
      if c.toNat < 32 then .error "Invalid control character"
      else parseStringBody rest (c :: acc)

/-- Assemble a JSON number from sign, integer digits, fraction digits and
optional signed decimal exponent, as an exact rational. -/
def mkJsonNum (neg : Bool) (intDigits fracDigits : List Char)
    (e : Option (Bool × Nat)) : Rat :=
  let mantissa : Int :=
    (digitsToNat intDigits * 10 ^ fracDigits.length + digitsToNat fracDigits : Nat)
  let mantissa : Int := if neg then -mantissa else mantissa
  match e with
  | none => mkRat mantissa (10 ^ fracDigits.length)
  | some (eneg, n) =>
      if eneg then mkRat mantissa (10 ^ fracDigits.length * 10 ^ n)
      else mkRat (mantissa * 10 ^ n) (10 ^ fracDigits.length)

/-- A Python integer as a dynamic value (used for primary keys, sentinels
and integer literals). -/
def pyInt (n : Int) : Value := .num (mkRat n 1)

/-- Parse a JSON number starting at `cs` (first char is a digit or `-`).
As in Python, a leading `0` is not followed by further integer digits (the
scan stops, so `01` yields `0` with `1` left over). -/
def parseNumber (cs : List Char) : Except String (Rat × List Char) :=
  let (neg, cs1) := match cs with
    | '-' :: rest => (true, rest)
    | _ => (false, cs)
  let intDigits := match cs1 with
    | '0' :: _ => ['0']
    | _ => cs1.takeWhile isDigit
  let cs2 := cs1.drop intDigits.length
  if intDigits.isEmpty then .error "Expecting value"
  else
    let step2 : Except String ((List Char) × List Char) := match cs2 with
      | '.' :: rest =>
          let fds := rest.takeWhile isDigit
          if fds.isEmpty then .error "Expecting value"
          else .ok (fds, rest.dropWhile isDigit)
      | _ => .ok ([], cs2)
    match step2 with
    | .error e => .error e
    | .ok (fracDigits, cs3) =>
      match cs3 with
      | 'e' :: rest | 'E' :: rest =>
          let (eneg, rest2) := match rest with
            | '-' :: r => (true, r)
            | '+' :: r => (false, r)
            | _ => (false, rest)
          let eds := rest2.takeWhile isDigit
          if eds.isEmpty then .error "Expecting value"
          else .ok (mkJsonNum neg intDigits fracDigits (some (eneg, digitsToNat eds)),
                    rest2.dropWhile isDigit)
      | _ => .ok (mkJsonNum neg intDigits fracDigits none, cs3)

mutual

/-- Fuelled recursive-descent parse of one JSON value; `fuel` bounds the
call-chain depth (a chain consumes at least one character every two calls,
so `2 * length + 4` always suffices, as supplied by `jsonLoads`). -/
def parseVal : Nat → List Char → Except String (Value × List Char)
  | 0, _ => .error "fuel exhausted"
  | fuel + 1, cs =>
    match skipWs cs with
    | [] => .error "Expecting value"
    | c :: rest =>
      if c = '"' then
        match parseStringBody rest [] with
        | .ok (s, rest2) => .ok (.str s, rest2)
        | .error e => .error e
      else if c = '{' then parseObjBody fuel rest []
      else if c = '[' then parseArrBody fuel rest []
      else if c = 't' then
        match rest with
        | 'r' :: 'u' :: 'e' :: rest2 => .ok (.bool true, rest2)
        | _ => .error "Expecting value"
      else if c = 'f' then
        match rest with
        | 'a' :: 'l' :: 's' :: 'e' :: rest2 => .ok (.bool false, rest2)
        | _ => .error "Expecting value"
      else if c = 'n' then
        match rest with
        | 'u' :: 'l' :: 'l' :: rest2 => .ok (.null, rest2)
        | _ => .error "Expecting value"
      else if c = '-' || isDigit c then
        match parseNumber (c :: rest) with
        | .ok (q, rest2) => .ok (.num q, rest2)
        | .error e => .error e
      else .error "Expecting value"

/-- Parse the members of a JSON object (position: just after `{` or after a
member separator); duplicate keys collapse Python-dict style. -/
def parseObjBody : Nat → List Char → List (String × Value) →
    Except String (Value × List Char)
  | 0, _, _ => .error "fuel exhausted"
  | fuel + 1, cs, acc =>
    match skipWs cs with
    | '}' :: rest =>
        if acc.isEmpty then .ok (.obj [], rest)
        else .error "Expecting property name"
    | '"' :: rest =>
        match parseStringBody rest [] with
        | .error e => .error e
        | .ok (k, rest2) =>
          match skipWs rest2 with
          | ':' :: rest3 =>
              match parseVal fuel rest3 with
              | .error e => .error e
              | .ok (v, rest4) =>
                let acc2 := dictSet acc k v
                match skipWs rest4 with
                | ',' :: rest5 => parseObjBody fuel rest5 acc2
                | '}' :: rest5 => .ok (.obj acc2, rest5)
                | _ => .error "Expecting delimiter"
          | _ => .error "Expecting colon"
    | _ => .error "Expecting property name"

/-- Parse the elements of a JSON array (position: just after `[` or after a
separator). -/
def parseArrBody : Nat → List Char → List Value →
    Except String (Value × List Char)
  | 0, _, _ => .error "fuel exhausted"
  | fuel + 1, cs, acc =>
    match skipWs cs with
    | ']' :: rest =>
        if acc.isEmpty then .ok (.arr [], rest) else .error "Expecting value"
    | cs2 =>
        match parseVal fuel cs2 with
        | .error e => .error e
        | .ok (v, rest) =>
          let acc2 := acc ++ [v]
          match skipWs rest with
          | ',' :: rest2 => parseArrBody fuel rest2 acc2
          | ']' :: rest2 => .ok (.arr acc2, rest2)
          | _ => .error "Expecting delimiter"

end

/-- Model of Python `json.loads` on a string: parse one JSON value and
require only whitespace to follow. -/
def jsonLoads (s : String) : Except String Value :=
  match parseVal (2 * s.length + 4) s.toList with
  | .error e => .error e
  | .ok (v, rest) =>
      if (skipWs rest).isEmpty then .ok v else .error "Extra data"

/-! ### The repair pipeline: `TestDataGenerator._clean_json_response`
(src/data_generator.py lines 155-183)

Each Python `re.sub` pass is modelled as a left-to-right scanner with
non-overlapping match semantics (scanning resumes after the replaced
text), exactly as `re.sub` behaves.  `\s` is the whitespace class
`isPyWs`.  Scanners that restart past a consumed match use a fuel
argument; fuel `length + 1` always suffices since every step consumes at
least one character. -/

/-- `re.sub(r'^\s*\[\s*\[', '[', s)`: collapse a doubled opening bracket
at the start (the anchored pattern can match at most once). -/
def subDoubledOpen (cs : List Char) : List Char :=
  match cs.dropWhile isPyWs with
  | '[' :: r1 =>
      match r1.dropWhile isPyWs with
      | '[' :: r2 => '[' :: r2
      | _ => cs
  | _ => cs

/-- `re.sub(r'\]\s*\]\s*$', ']', s)`: collapse a doubled closing bracket
at the end (trailing whitespace inside the match is dropped with it). -/
def subDoubledClose (cs : List Char) : List Char :=
  match cs.reverse.dropWhile isPyWs with
  | ']' :: r1 =>
      match r1.dropWhile isPyWs with
      | ']' :: r2 => (']' :: r2).reverse
      | _ => cs
  | _ => cs

/-- `re.sub(r'//.*', '', s)`: delete from each `//` to the end of its
line (`.` does not match the newline). -/
def subLineComments : Bool → List Char → List Char
  | _, [] => []
  | true, c :: rest =>
      if c = '\n' then c :: subLineComments false rest
      else subLineComments true rest
  | false, '/' :: '/' :: rest => subLineComments true rest
  | false, c :: rest => c :: subLineComments false rest

/-- Remainder after the first `*/` (used below). -/
def dropThroughClose : List Char → List Char
  | [] => []
  | '*' :: '/' :: rest => rest
  | _ :: rest => dropThroughClose rest

/-- Whether `*/` occurs in the text. -/
def hasCommentClose : List Char → Bool
  | [] => false
  | '*' :: '/' :: _ => true
  | _ :: rest => hasCommentClose rest

/-- `re.sub(r'/\*.*?\*/', '', s, flags=DOTALL)`: delete each non-greedy
block comment; an unclosed `/*` matches nothing and is kept. -/
def subBlockComments : Nat → List Char → List Char
  | 0, cs => cs
  | _ + 1, [] => []
  | fuel + 1, '/' :: '*' :: rest =>
      if hasCommentClose rest then subBlockComments fuel (dropThroughClose rest)
      else '/' :: '*' :: subBlockComments fuel rest
  | fuel + 1, c :: rest => c :: subBlockComments fuel rest

/-- `re.sub(r',(\s*\])', r'\1', s)`: drop a comma standing immediately
before (whitespace and) a closing bracket. -/
def subTrailingComma : Nat → List Char → List Char
  | 0, cs => cs
  | _ + 1, [] => []
  | fuel + 1, ',' :: rest =>
      let ws := rest.takeWhile isPyWs
      (match rest.dropWhile isPyWs with
       | ']' :: r2 => ws ++ ']' :: subTrailingComma fuel r2
       | _ => ',' :: subTrailingComma fuel rest)
  | fuel + 1, c :: rest => c :: subTrailingComma fuel rest

/-- Drop blank lines: `'\n'.join(line for line in s.splitlines() if line.strip())`. -/
def dropBlankLines (s : String) : String :=
  String.intercalate "\n" ((pySplitlines s).filter (fun l => pyStrip l ≠ ""))

/-- `s.replace("\\'", "'")`. -/
def subEscapedSingleQuote : List Char → List Char
  | [] => []
  | '\\' :: '\x27' :: rest => '\x27' :: subEscapedSingleQuote rest
  | c :: rest => c :: subEscapedSingleQuote rest

/-- Whether `cs` starts with `null` followed by anything. -/
def startsWithNull : List Char → Option (List Char)
  | 'n' :: 'u' :: 'l' :: 'l' :: rest => some rest
  | _ => none

/-- `re.sub(r',\s*null\s*,', ',', s)` (scanning resumes after the second
comma, so overlapping `,null,null,` collapses only once per pass). -/
def subCommaNullComma : Nat → List Char → List Char
  | 0, cs => cs
  | _ + 1, [] => []
  | fuel + 1, ',' :: rest =>
      (match startsWithNull (rest.dropWhile isPyWs) with
       | some r2 =>
          (match r2.dropWhile isPyWs with
           | ',' :: r3 => ',' :: subCommaNullComma fuel r3
           | _ => ',' :: subCommaNullComma fuel rest)
       | none => ',' :: subCommaNullComma fuel rest)
  | fuel + 1, c :: rest => c :: subCommaNullComma fuel rest

/-- `re.sub(r',\s*null\s*}', '}', s)`. -/
def subCommaNullBrace : Nat → List Char → List Char
  | 0, cs => cs
  | _ + 1, [] => []
  | fuel + 1, ',' :: rest =>
      (match startsWithNull (rest.dropWhile isPyWs) with
       | some r2 =>
          (match r2.dropWhile isPyWs with
           | '\x7d' :: r3 => '\x7d' :: subCommaNullBrace fuel r3
           | _ => ',' :: subCommaNullBrace fuel rest)
       | none => ',' :: subCommaNullBrace fuel rest)
  | fuel + 1, c :: rest => c :: subCommaNullBrace fuel rest

/-- `re.sub(r'{\s*null\s*,', '{', s)`. -/
def subBraceNullComma : Nat → List Char → List Char
  | 0, cs => cs
  | _ + 1, [] => []
  | fuel + 1, '\x7b' :: rest =>
      (match startsWithNull (rest.dropWhile isPyWs) with
       | some r2 =>
          (match r2.dropWhile isPyWs with
           | ',' :: r3 => '\x7b' :: subBraceNullComma fuel r3
           | _ => '\x7b' :: subBraceNullComma fuel rest)
       | none => '\x7b' :: subBraceNullComma fuel rest)
  | fuel + 1, c :: rest => c :: subBraceNullComma fuel rest

/-- `re.sub(r',\s*,+', ',', s)`: collapse a comma, optional whitespace and
a run of commas into one comma. -/
def subRepeatedCommas : Nat → List Char → List Char
  | 0, cs => cs
  | _ + 1, [] => []
  | fuel + 1, ',' :: rest =>
      let afterWs := rest.dropWhile isPyWs
      (match afterWs with
       | ',' :: _ =>
          ',' :: subRepeatedCommas fuel (afterWs.dropWhile (fun c => c = ','))
       | _ => ',' :: subRepeatedCommas fuel rest)
  | fuel + 1, c :: rest => c :: subRepeatedCommas fuel rest

/-- Run a fuelled scanner with always-sufficient fuel. -/
def runScan (f : Nat → List Char → List Char) (s : String) : String :=
  (f (s.length + 1) s.toList).asString

/-- `TestDataGenerator._clean_json_response` (src/data_generator.py,
lines 155-183): the ordered pass-1 repair pipeline. -/
def clean_json_response (s : String) : String :=
  let s := (subDoubledOpen s.toList).asString
  let s := (subDoubledClose s.toList).asString
  let s := (subLineComments false s.toList).asString
  let s := runScan subBlockComments s
  let s := runScan subTrailingComma s
  let s := dropBlankLines s
  let s := (subEscapedSingleQuote s.toList).asString
  let s := runScan subCommaNullComma s
  let s := runScan subCommaNullBrace s
  let s := runScan subBraceNullComma s
  runScan subRepeatedCommas s


/-! ### Balanced-span scanners

`_extract_first_json_array` (src/data_generator.py lines 246-280, and the
identical copy in src/selenium_llm_parser.py lines 151-180): start at the
first `[` found by `text.find('[')`, then scan with `depth` / `in_str` /
`escape` state; `escape` is only consulted and set inside a string.

`_find_first_json_array` (src/langchain_ollama.py lines 259-289): start
at the first `[` seen by the loop (quote state is not tracked before the
start), then scan with `esc` consulted before anything else (also outside
strings) and `"` toggling `in_str`. -/

/-- The scan loop of `_extract_first_json_array` from the character after
entering the loop; `acc` holds the span consumed so far, reversed. -/
def extractScan : List Char → List Char → Int → Bool → Bool → Option (List Char)
  | [], _, _, _, _ => none
  | c :: rest, acc, depth, inStr, esc =>
    if inStr then
      if esc then extractScan rest (c :: acc) depth inStr false
      else if c = '\\' then extractScan rest (c :: acc) depth inStr true
      else if c = '"' then extractScan rest (c :: acc) depth false esc
      else extractScan rest (c :: acc) depth inStr esc
    else
      if c = '"' then extractScan rest (c :: acc) depth true esc
      else if c = '[' then extractScan rest (c :: acc) (depth + 1) inStr esc
      else if c = ']' then
        if depth - 1 = 0 then some (c :: acc).reverse
        else extractScan rest (c :: acc) (depth - 1) inStr esc
      else extractScan rest (c :: acc) depth inStr esc

/-- Predicate for `text.find(c)` scans: true while the character differs
from the sought one. -/
def isNot (a : Char) (c : Char) : Bool := c ≠ a

/-- `_extract_first_json_array(text)`. -/
def extract_first_json_array (s : String) : Option String :=
  if s = "" then none
  else
    match s.toList.dropWhile (isNot '[') with
    | [] => none
    | tail => (extractScan tail [] 0 false false).map List.asString

/-- The scan loop of `_find_first_json_array` from the character after the
opening bracket. -/
def findScan : List Char → List Char → Int → Bool → Bool → Option (List Char)
  | [], _, _, _, _ => none
  | c :: rest, acc, depth, inStr, esc =>
    if esc then findScan rest (c :: acc) depth inStr false
    else if c = '\\' then findScan rest (c :: acc) depth inStr true
    else if c = '"' then findScan rest (c :: acc) depth (!inStr) esc
    else if inStr then findScan rest (c :: acc) depth inStr esc
    else if c = '[' then findScan rest (c :: acc) (depth + 1) inStr esc
    else if c = ']' then
      if depth - 1 = 0 then some (c :: acc).reverse
      else findScan rest (c :: acc) (depth - 1) inStr esc
    else findScan rest (c :: acc) depth inStr esc

/-- `_find_first_json_array(text)`. -/
def find_first_json_array (s : String) : Option String :=
  match s.toList.dropWhile (isNot '[') with
  | '[' :: rest => (findScan rest ['['] 1 false false).map List.asString
  | _ => none

/-! ### NDJSON reassembly

The reassembly loop of `generate_data` (src/data_generator.py lines
222-244): parse each stripped non-empty line; if it is an object carrying
a string under the key `response`, append that string (a non-string value
raises `TypeError` inside the guarded block and the line is skipped);
otherwise ignore the line.  If the accumulator ends empty the raw
response is used verbatim. -/

/-- Python `''.join(parts)`. -/
def strConcat : List String → String
  | [] => ""
  | s :: rest => s ++ strConcat rest

/-- The contribution of one line to the accumulator, if any. -/
def lineChunk (line : String) : Option String :=
  let l := pyStrip line
  if l = "" then none
  else
    match jsonLoads l with
    | .ok (.obj kvs) =>
        match dictGet kvs "response" with
        | some (.str s) => some s
        | _ => none
    | _ => none

/-- Reassembly over an explicit list of lines, preserving order. -/
def assembleLines (ls : List String) : String :=
  strConcat (ls.filterMap lineChunk)

/-- The accumulator built by the NDJSON loop of `generate_data`. -/
def assembleNdjson (resp : String) : String :=
  assembleLines (pySplitlines resp)

/-- `source_for_extraction = assembled if assembled else (response or '')`. -/
def source_for_extraction (resp : String) : String :=
  if assembleNdjson resp = "" then resp else assembleNdjson resp

/-! ### The `invoke` body-text processing of `OllamaLLM`
(src/langchain_ollama.py lines 93-320), modelled from the full response
body onward (HTTP transport is external).  Lines that fail to parse are
appended verbatim as text chunks; parsed objects contribute the first
string value among the keys `token`/`text`/`content`/`output`/`response`,
or, failing that, the concatenation of all string leaves
(`extract_strings`).  A parsed non-object makes Python evaluate
`key in obj`, which raises `TypeError` on numbers/booleans/null and
`AttributeError` (via `.get`) on strings/lists that contain the key;
those uncaught exceptions are modelled as errors. -/

/-- `extract_strings(o)`: all string leaves in document order, fuelled
(fuel `source length + 1` always exceeds the value's depth). -/
def extract_strings : Nat → Value → List String
  | 0, _ => []
  | _ + 1, .str s => [s]
  | fuel + 1, .obj kvs => (kvs.map (fun kv => extract_strings fuel kv.2)).flatten
  | fuel + 1, .arr xs => (xs.map (fun x => extract_strings fuel x)).flatten
  | _ + 1, _ => []

/-- Whether `pat` is an initial segment of `cs`. -/
def startsWithList : List Char → List Char → Bool
  | [], _ => true
  | _ :: _, [] => false
  | p :: ps, c :: cs => p = c && startsWithList ps cs

/-- Python substring containment `pat in s`. -/
def listContainsSub (pat : List Char) : List Char → Bool
  | [] => pat.isEmpty
  | c :: cs => startsWithList pat (c :: cs) || listContainsSub pat cs

/-- Python `key in value` followed by `.get`, for the key-probing loop:
on a dict, a string hit appends and breaks, a non-string hit continues;
on a string/list, a membership hit raises; on other values `in` raises. -/
def probeKeys (obj : Value) (fuel : Nat) : List String → Except String (Option String)
  | [] =>
      -- for-else: no break happened
      let strs := extract_strings fuel obj
      if strs.isEmpty then .ok none else .ok (some (strConcat strs))
  | key :: keys =>
      match obj with
      | .obj kvs =>
          (match dictGet kvs key with
           | some (.str s) => .ok (some s)
           | some _ => probeKeys obj fuel keys
           | none => probeKeys obj fuel keys)
      | .str s =>
          if listContainsSub key.toList s.toList then
            .error "AttributeError: str object has no attribute get"
          else probeKeys obj fuel keys
      | .arr xs =>
          if xs.any (fun x => match x with | .str t => t = key | _ => false) then
            .error "AttributeError: list object has no attribute get"
          else probeKeys obj fuel keys
      | _ => .error "TypeError: argument is not iterable"

/-- One line of the first (raw-text) loop of `invoke` (lines 104-143). -/
def invokeLinePart (line : String) : Except String (Option String) :=
  let l := pyStrip line
  if l = "" then .ok none
  else
    match jsonLoads l with
    | .error _ => .ok (some l)
    | .ok obj => probeKeys obj (l.length + 1) ["token", "text", "content", "output", "response"]

/-- One line of the `iter_lines` loops of `invoke` (lines 146-197 and
199-251), which first require the stripped line to start with `{` and end
with `}` before attempting to parse it. -/
def invokeLinePartB (line : String) : Except String (Option String) :=
  let l := pyStrip line
  if l = "" then .ok none
  else if startsWithList ['\x7b'] l.toList && startsWithList ['\x7d'] l.toList.reverse then
    match jsonLoads l with
    | .error _ => .ok (some l)
    | .ok obj => probeKeys obj (l.length + 1) ["token", "text", "content", "output", "response"]
  else .ok (some l)

/-- Collect the parts contributed by a list of lines. -/
def collectParts (f : String → Except String (Option String)) :
    List String → Except String (List String)
  | [] => .ok []
  | l :: ls =>
      match f l with
      | .error e => .error e
      | .ok p =>
          match collectParts f ls with
          | .error e => .error e
          | .ok ps => .ok (p.toList ++ ps)

/-- The deterministic part of `OllamaLLM.invoke` from the full body text
onward.  Since `resp.text` was already consumed, the unconditional second
`iter_lines` loop (lines 199-251) re-iterates the cached body and appends
every chunk a second time; `_find_first_json_array` then recovers the
first balanced array from the doubled text. -/
def invoke_from_body (raw : String) : Except String String :=
  match collectParts invokeLinePart (pySplitlines raw) with
  | .error e => .error e
  | .ok parts1 =>
    match (if parts1.isEmpty then collectParts invokeLinePartB (pySplitlines raw)
           else .ok []) with
    | .error e => .error e
    | .ok partsMid =>
      match collectParts invokeLinePartB (pySplitlines raw) with
      | .error e => .error e
      | .ok partsB =>
        let result := pyStrip (strConcat (parts1 ++ partsMid ++ partsB))
        match find_first_json_array result with
        | some arr => .ok arr
        | none =>
            if result ≠ "" then .ok result
            else if pyStrip raw ≠ "" then .ok raw
            else .error "Empty response from Ollama."

/-! ### `TestDataGenerator.generate_data` response processing
(src/data_generator.py lines 185-348), modelled from the LLM response
text onward (prompt construction and the HTTP call are external).

The parse stage is modelled exactly as written: on a `JSONDecodeError`
the code RERAISES the error (lines 306-313) before the
"additional, aggressive fixes" block (lines 314-334), which is therefore
unreachable; that dead repair block is embedded separately below as
`second_pass_repair` so its effect can be stated. -/

/-- `re.search(r'\[.*\]', response, re.DOTALL)`: greedy match from the
first `[` to the last `]` after it. -/
def regex_first_to_last_bracket (s : String) : Option String :=
  match s.toList.dropWhile (isNot '[') with
  | '[' :: tail =>
      (match tail.reverse.dropWhile (isNot ']') with
       | ']' :: restRev => some ('[' :: (']' :: restRev).reverse).asString
       | _ => none)
  | _ => none

/-- The `json_str` value reaching the parse stage of `generate_data`:
NDJSON reassembly, balanced-array extraction with its two fallbacks, then
`_clean_json_response`. -/
def generate_data_json_str (response : String) : String :=
  let source := source_for_extraction response
  let json_str :=
    match extract_first_json_array source with
    | some s => s
    | none =>
      match regex_first_to_last_bracket response with
      | some s => s
      | none =>
        let j := pyStrip response
        let j :=
          if startsWithList ['['] j.toList &&
             !(startsWithList [']'] j.toList.reverse) then j ++ "\n]" else j
        runScan subTrailingComma j
  clean_json_response json_str

/-- `if not isinstance(generated_data, list): generated_data = [generated_data]`. -/
def wrapNonList (v : Value) : List Value :=
  match v with
  | .arr xs => xs
  | other => [other]

/-- The parsed record list of `generate_data` (error on parse failure:
the second repair pass is dead code and never runs). -/
def generate_data_parsed (response : String) : Except String (List Value) :=
  match jsonLoads (generate_data_json_str response) with
  | .error e => .error ("Failed to parse JSON. LLM response format issue: " ++ e)
  | .ok v => .ok (wrapNonList v)

/-- The result dict of `generate_data`. -/
structure GenResult where
  data : List Value
  count : Nat
deriving Repr

/-- `generate_data` from the response text onward:
`{"data": generated_data[:num_records], "count": len(generated_data[:num_records])}`. -/
def generate_data_core (response : String) (num_records : Nat) :
    Except String GenResult :=
  match generate_data_parsed response with
  | .error e => .error e
  | .ok lst => .ok ⟨lst.take num_records, (lst.take num_records).length⟩

/-! ### The unreachable second repair pass (src/data_generator.py lines
314-334), embedded so that its behaviour at a failing input can be
stated. -/

def isWordChar (c : Char) : Bool :=
  ('a' ≤ c && c ≤ 'z') || ('A' ≤ c && c ≤ 'Z') || isDigit c || c = '_'

/-- `re.sub(r"\bTrue\b", "true", s)` and friends: replace whole-word
occurrences (word boundaries on both sides); `prev` is the previous
character of the original text. -/
def replaceWordAux (w r : List Char) : Nat → Option Char → List Char → List Char
  | 0, _, cs => cs
  | _ + 1, _, [] => []
  | fuel + 1, prev, c :: cs =>
      let prevBoundary := match prev with
        | none => true
        | some p => !isWordChar p
      if prevBoundary && startsWithList w (c :: cs) then
        let rest := (c :: cs).drop w.length
        let nextBoundary := match rest with
          | [] => true
          | d :: _ => !isWordChar d
        if nextBoundary then r ++ replaceWordAux w r fuel (w.getLast?) rest
        else c :: replaceWordAux w r fuel (some c) cs
      else c :: replaceWordAux w r fuel (some c) cs

def replaceWordAll (w r : String) (s : String) : String :=
  (replaceWordAux w.toList r.toList (s.length + 1) none s.toList).asString

/-- `re.sub(r"(?<=[{,\s])'([^']+?)'\s*:\s*", r'"\1": ', s)`: rewrite a
single-quoted key (preceded by `{`, `,` or whitespace) and its colon into
a double-quoted key, colon and one space; `prev` is the previous original
character (the lookbehind reads the original text). -/
def subSingleQuoteKeys : Nat → Option Char → List Char → List Char
  | 0, _, cs => cs
  | _ + 1, _, [] => []
  | fuel + 1, prev, c :: cs =>
      let prevOk := match prev with
        | none => false
        | some p => p = '\x7b' || p = ',' || isPyWs p
      if c = '\x27' && prevOk then
        let inner := cs.takeWhile (fun d => d ≠ '\x27')
        match inner, cs.drop inner.length with
        | _ :: _, '\x27' :: afterQ =>
            let ws1 := afterQ.takeWhile isPyWs
            (match afterQ.dropWhile isPyWs with
             | ':' :: afterColon =>
                let ws2 := afterColon.takeWhile isPyWs
                let lastOrig := match ws2.getLast? with
                  | some x => some x
                  | none => some ':'
                '"' :: inner ++ '"' :: ':' :: ' ' ::
                  subSingleQuoteKeys fuel lastOrig (afterColon.drop ws2.length)
             | _ =>
                let _ := ws1
                c :: subSingleQuoteKeys fuel (some c) cs)
        | _, _ => c :: subSingleQuoteKeys fuel (some c) cs
      else c :: subSingleQuoteKeys fuel (some c) cs

/-- The dead "additional, aggressive fixes" block (lines 314-334): quoted
keys, literal casing, stray nulls, repeated separators. -/
def second_pass_repair (s : String) : String :=
  let s := (subSingleQuoteKeys (s.length + 1) none s.toList).asString
  let s := replaceWordAll "True" "true" s
  let s := replaceWordAll "False" "false" s
  let s := replaceWordAll "None" "null" s
  let s := runScan subCommaNullComma s
  let s := runScan subCommaNullBrace s
  let s := runScan subBraceNullComma s
  runScan subRepeatedCommas s

/-! ### Key injection (src/db_generator.py lines 60-105 and
src/intelligent_db_generator.py lines 824-881)

A generated row is a Python dict from field names to values.  The two
`_inject_foreign_keys` variants are embedded separately, mirroring the
duplication in the source: the `db_generator` one has no primary-key
guard, the `intelligent_db_generator` one takes `pk_field` and skips an
FK whose name collides with it.  `random.choice(parent_keys)` is modelled
as `parent_keys[rand k % len]` for an arbitrary stream `rand` of naturals,
`k` counting the choice calls made so far. -/

abbrev Row := List (String × Value)

/-- Generic association-list lookup (Python `dict.get` for non-Value
ranges such as the generated-tables map). -/
def alGet {α : Type} (kvs : List (String × α)) (k : String) : Option α :=
  match kvs with
  | [] => none
  | (k0, v0) :: rest => if k0 = k then some v0 else alGet rest k

/-- Generic association-list update with CPython dict semantics. -/
def alSet {α : Type} (kvs : List (String × α)) (k : String) (v : α) :
    List (String × α) :=
  match kvs with
  | [] => [(k, v)]
  | (k0, v0) :: rest =>
      if k0 = k then (k0, v) :: rest else (k0, v0) :: alSet rest k v

/-- Python truthiness of a dynamic value. -/
def truthy : Value → Bool
  | .null => false
  | .bool b => b
  | .num q => q != 0
  | .str s => s ≠ ""
  | .arr xs => !xs.isEmpty
  | .obj kvs => !kvs.isEmpty

/-- Decimal rendering of a natural (Python `str(i)`), fuelled so it
reduces definitionally. -/
def natToStrAux : Nat → Nat → List Char → List Char
  | 0, _, acc => acc
  | fuel + 1, n, acc =>
      if n < 10 then Char.ofNat ('0'.toNat + n) :: acc
      else natToStrAux fuel (n / 10) (Char.ofNat ('0'.toNat + n % 10) :: acc)

def natToStr (n : Nat) : String := (natToStrAux (n + 1) n []).asString

/-- `random.choice(ks)` under one drawn natural. -/
def pyChoice (ks : List Value) (r : Nat) : Value := ks.getD (r % ks.length) .null

/-- `_generate_primary_keys(rows, pk_field, start_id)`:
`rows[i][pk_field] = start_id + i` (identical in both generator files). -/
def generate_primary_keys (rows : List Row) (pk_field : String)
    (start_id : Int := 1) : List Row :=
  rows.enum.map (fun p => dictSet p.2 pk_field (pyInt (start_id + p.1)))

/-- `fk_field.get("type") in ["integer", "int", "number"]`. -/
def fkTypeIsIntLike (f : Row) : Bool :=
  match dictGet f "type" with
  | some (.str t) => t = "integer" || t = "int" || t = "number"
  | _ => false

/-- The broken-FK sentinel written for an invalid row index. -/
def sentinelFor (f : Row) (parentTableName : String) (i : Nat) : Value :=
  if fkTypeIsIntLike f then pyInt (999999 + (i : Int))
  else .str ("INVALID_FK_" ++ parentTableName.toUpper ++ "_" ++ natToStr i)

/-- The row rewrite both injectors perform for one FK field once all
guards have passed: valid indices `[0, min(len, cc))` draw from the
parent keys, indices `[cc, len)` get the sentinel. -/
def injectRows (rows : List Row) (fk_name : String) (fk_field : Row)
    (parent_keys : List Value) (parent_table_name : String)
    (correct_count : Nat) (rand : Nat → Nat) (ctr : Nat) : List Row :=
  rows.enum.map (fun p =>
    if p.1 < correct_count then
      dictSet p.2 fk_name (pyChoice parent_keys (rand (ctr + p.1)))
    else dictSet p.2 fk_name (sentinelFor fk_field parent_table_name p.1))

/-- The guard cascade both injectors share for one FK field: a
`.ok none` is a `continue` path (missing/falsy `references`, parent
table absent or empty, no parent keys, non-string `table`/`field` values
which can never hit the string-keyed maps); a `.ok (some ...)` carries
the field name, the parent table name and the observed parent key list
for the injection loops; errors are the Python exceptions (`KeyError` on
a missing `table`, `AttributeError`/`TypeError` on malformed values). -/
def resolveFk (generated_tables : List (String × List Row)) (fk_field : Row) :
    Except String (Option (String × String × List Value)) :=
  match dictGet fk_field "name" with
  | none => .error "KeyError: name"
  | some (.str fk_name) =>
    (match dictGet fk_field "references" with
     | none => .ok none
     | some refV =>
       if !truthy refV then .ok none
       else match refV with
       | .obj ref =>
         (match dictGet ref "table" with
          | none => .error "KeyError: table"
          | some (.str parent_table_name) =>
            (match (dictGet ref "field").getD (.str "id") with
             | .str parent_field_name =>
               if ((alGet generated_tables parent_table_name).getD []).isEmpty then
                 .ok none
               else if (((alGet generated_tables parent_table_name).getD []).filterMap
                          (fun p => dictGet p parent_field_name)).isEmpty then
                 .ok none
               else
                 .ok (some (fk_name, parent_table_name,
                       ((alGet generated_tables parent_table_name).getD []).filterMap
                         (fun p => dictGet p parent_field_name)))
             | _ => .ok none)
          | some _ => .ok none)
       | _ => .error "AttributeError: references has no attribute get")
  | some _ => .error "TypeError: non-string field name (not modelled)"

/-- One FK field of `DatabaseTestDataGenerator._inject_foreign_keys`
(src/db_generator.py lines 65-105; no primary-key guard). -/
def injectFieldDb (generated_tables : List (String × List Row))
    (correct_count : Nat) (rand : Nat → Nat) (rows : List Row) (ctr : Nat)
    (fk_field : Row) : Except String (List Row × Nat) :=
  match resolveFk generated_tables fk_field with
  | .error e => .error e
  | .ok none => .ok (rows, ctr)
  | .ok (some (fk_name, parent_table_name, parent_keys)) =>
      .ok (injectRows rows fk_name fk_field parent_keys parent_table_name
             correct_count rand ctr,
           ctr + min rows.length correct_count)

/-- `DatabaseTestDataGenerator._inject_foreign_keys` over its field list. -/
def injectFieldsDb (generated_tables : List (String × List Row))
    (correct_count : Nat) (rand : Nat → Nat) :
    List Row → List Row → Nat → Except String (List Row)
  | [], rows, _ => .ok rows
  | f :: fs, rows, ctr =>
      match injectFieldDb generated_tables correct_count rand rows ctr f with
      | .error e => .error e
      | .ok (rows2, ctr2) => injectFieldsDb generated_tables correct_count rand fs rows2 ctr2

def inject_foreign_keys_db (rows : List Row) (fk_fields : List Row)
    (generated_tables : List (String × List Row)) (correct_count : Nat)
    (rand : Nat → Nat) : Except String (List Row) :=
  injectFieldsDb generated_tables correct_count rand fk_fields rows 0

/-- Whether `pk_field and fk_name == pk_field` holds (the guard of the
intelligent injector; `pk_field=None` and `""` are falsy). -/
def pkGuardHit (pkField : Option String) (fk_name : String) : Bool :=
  match pkField with
  | some p => p ≠ "" && fk_name = p
  | none => false

/-- One FK field of `IntelligentDatabaseGenerator._inject_foreign_keys`
(src/intelligent_db_generator.py lines 829-881): as the db_generator
variant, plus the primary-key collision guard placed after the
parent-keys checks (lines 860-863). -/
def injectFieldIntel (generated_tables : List (String × List Row))
    (correct_count : Nat) (pkField : Option String) (rand : Nat → Nat)
    (rows : List Row) (ctr : Nat) (fk_field : Row) :
    Except String (List Row × Nat) :=
  match resolveFk generated_tables fk_field with
  | .error e => .error e
  | .ok none => .ok (rows, ctr)
  | .ok (some (fk_name, parent_table_name, parent_keys)) =>
      if pkGuardHit pkField fk_name then .ok (rows, ctr)
      else
        .ok (injectRows rows fk_name fk_field parent_keys parent_table_name
               correct_count rand ctr,
             ctr + min rows.length correct_count)

def injectFieldsIntel (generated_tables : List (String × List Row))
    (correct_count : Nat) (pkField : Option String) (rand : Nat → Nat) :
    List Row → List Row → Nat → Except String (List Row)
  | [], rows, _ => .ok rows
  | f :: fs, rows, ctr =>
      match injectFieldIntel generated_tables correct_count pkField rand rows ctr f with
      | .error e => .error e
      | .ok (rows2, ctr2) =>
          injectFieldsIntel generated_tables correct_count pkField rand fs rows2 ctr2

def inject_foreign_keys_intel (rows : List Row) (fk_fields : List Row)
    (generated_tables : List (String × List Row)) (correct_count : Nat)
    (pkField : Option String) (rand : Nat → Nat) : Except String (List Row) :=
  injectFieldsIntel generated_tables correct_count pkField rand fk_fields rows 0

/-! ### Topological sequencing

Two implementations exist in the source and are embedded separately:

* `IntelligentDatabaseGenerator._topo_sort_tables`
  (src/intelligent_db_generator.py lines 770-822): Kahn's algorithm with
  per-FIELD in-degree increments but per-unique-edge decrements, followed
  by a deterministic lexically-sorted append of the nodes left with
  positive in-degree.
* `DatabaseTestDataGenerator._topo_sort_tables`
  (src/db_generator.py lines 22-58): depth-first search that RAISES on a
  cycle.

A table dict is embedded as its `table_name` plus its `fields` list (the
only keys either sort reads); Python sets of table names are modelled as
insertion-ordered duplicate-free lists. -/

structure Table where
  table_name : String
  fields : List Row
deriving Repr

/-- `{t["table_name"]: t for t in tables}` (later duplicates overwrite). -/
def nameToTable (tables : List Table) : List (String × Table) :=
  tables.foldl (fun m t => alSet m t.table_name t) []

/-- The parent named by one field in the intelligent graph build:
`ref = field.get("references"); if ref: parent = ref.get("table");
if parent and parent in name_to_table and parent != child`.  A truthy
non-dict `references` raises `AttributeError` in Python; a non-string
`parent` fails the `in` test against the string-keyed dict and is
skipped. -/
def fieldParentIntel (names : List String) (child : String) (f : Row) :
    Except String (Option String) :=
  match dictGet f "references" with
  | none => .ok none
  | some refV =>
    if !truthy refV then .ok none
    else match refV with
    | .obj ref =>
      (match dictGet ref "table" with
       | some (.str p) =>
           if p ≠ "" && names.contains p && p ≠ child then .ok (some p)
           else .ok none
       | some _ => .ok none
       | none => .ok none)
    | _ => .error "AttributeError: references has no attribute get"

/-- `parents_to_children[parent].add(child)` (set add). -/
def addChildEdge (ptc : List (String × List String)) (parent child : String) :
    List (String × List String) :=
  match alGet ptc parent with
  | some chs => if chs.contains child then ptc else alSet ptc parent (chs ++ [child])
  | none => alSet ptc parent [child]

/-- Graph state: children map and in-degree map. -/
abbrev GraphSt := List (String × List String) × List (String × Int)

/-- Add the edges of one table's fields. -/
def buildGraphFields (names : List String) (child : String) :
    List Row → GraphSt → Except String GraphSt
  | [], st => .ok st
  | f :: fs, (ptc, indeg) =>
      match fieldParentIntel names child f with
      | .error e => .error e
      | .ok none => buildGraphFields names child fs (ptc, indeg)
      | .ok (some parent) =>
          buildGraphFields names child fs
            (addChildEdge ptc parent child,
             alSet indeg child ((alGet indeg child).getD 0 + 1))

/-- Build `parents_to_children` / `in_degree` over all tables. -/
def buildGraph (names : List String) : List Table → GraphSt → Except String GraphSt
  | [], st => .ok st
  | t :: ts, st =>
      match buildGraphFields names t.table_name t.fields st with
      | .error e => .error e
      | .ok st2 => buildGraph names ts st2

/-- Decrement the in-degree of each child of a popped node, enqueueing
children that reach zero. -/
def processChildren : List String → List (String × Int) → List String →
    (List (String × Int)) × List String
  | [], deg, q => (deg, q)
  | c :: cs, deg, q =>
      let d := (alGet deg c).getD 0 - 1
      let deg2 := alSet deg c d
      processChildren cs deg2 (if d = 0 then q ++ [c] else q)

/-- The Kahn queue loop (fuelled; the supplied fuel always suffices, see
`kahnLoop_drains`). -/
def kahnLoop (ptc : List (String × List String)) :
    Nat → List (String × Int) → List String → List String →
    (List (String × Int)) × List String
  | 0, deg, _, order => (deg, order)
  | _ + 1, deg, [], order => (deg, order)
  | fuel + 1, deg, n :: q, order =>
      let children := (alGet ptc n).getD []
      let (deg2, q2) := processChildren children deg q
      kahnLoop ptc fuel deg2 q2 (order ++ [n])

/-- Total number of recorded edges (fuel bound). -/
def edgeCount (ptc : List (String × List String)) : Nat :=
  ptc.foldl (fun a p => a + p.2.length) 0

/-- Strict lexicographic order on character lists (Python string `<`:
code-point comparison). -/
def listCharLt : List Char → List Char → Bool
  | [], [] => false
  | [], _ :: _ => true
  | _ :: _, [] => false
  | a :: as, b :: bs => if a = b then listCharLt as bs else decide (a < b)

def strLtB (a b : String) : Bool := listCharLt a.toList b.toList

/-- Stable insertion for ascending insertion sort (an equal or smaller
element stays before the inserted one). -/
def insertSortedStr (x : String) : List String → List String
  | [] => [x]
  | y :: rest => if strLtB x y then x :: y :: rest else y :: insertSortedStr x rest

/-- Python `sorted` on strings (insertion sort; the `remaining` lists it
is applied to are duplicate-free, so stability is immaterial). -/
def pySortedStrings (ls : List String) : List String :=
  ls.foldr insertSortedStr []

/-- The full outcome of the intelligent topological sort: the ordered
tables, the final name order, and the `remaining` list whose nonemptiness
triggers the circular-dependency diagnostic print. -/
structure TopoResult where
  order : List Table
  order_names : List String
  remaining : List String
deriving Repr

/-- `IntelligentDatabaseGenerator._topo_sort_tables`. -/
def topo_sort_tables_intel (tables : List Table) : Except String TopoResult :=
  let ntt := nameToTable tables
  let names := ntt.map (fun p => p.1)
  let ptc0 : List (String × List String) := names.map (fun n => (n, []))
  let indeg0 : List (String × Int) := names.map (fun n => (n, 0))
  match buildGraph names tables (ptc0, indeg0) with
  | .error e => .error e
  | .ok (ptc, indeg) =>
    let queue0 := (indeg.filter (fun p => p.2 = 0)).map (fun p => p.1)
    let fuel := names.length + edgeCount ptc + 1
    let (finalDeg, korder) := kahnLoop ptc fuel indeg queue0 []
    let remaining := (finalDeg.filter (fun p => 0 < p.2)).map (fun p => p.1)
    let orderNames :=
      (pySortedStrings remaining).foldl
        (fun acc n => if acc.contains n then acc else acc ++ [n]) korder
    .ok ⟨orderNames.filterMap (alGet ntt), orderNames, remaining⟩

/-! ### The DFS sort of `db_generator` (raises on cycles). -/

structure DbSt where
  visited : List (String × Int)
  order : List Table
deriving Repr

mutual

/-- `visit(tname)` of `DatabaseTestDataGenerator._topo_sort_tables`. -/
def dbVisit : Nat → List (String × Table) → String → DbSt → Except String DbSt
  | 0, _, _, _ => .error "fuel exhausted"
  | fuel + 1, ntt, tname, st =>
    match alGet st.visited tname with
    | some 1 => .ok st
    | some (-1) => .error ("Circular dependency detected for table: " ++ tname)
    | _ =>
      let st1 : DbSt := ⟨alSet st.visited tname (-1), st.order⟩
      match alGet ntt tname with
      | none => .ok ⟨alSet st1.visited tname 1, st1.order⟩
      | some table =>
        match dbVisitFields fuel ntt tname table.fields st1 with
        | .error e => .error e
        | .ok st2 => .ok ⟨alSet st2.visited tname 1, st2.order ++ [table]⟩

/-- Visit, in order, the parents named by a table's fields.  A non-string
truthy parent is visited by Python under a non-string dict key and has no
observable effect on string-keyed state; it is modelled as a no-op. -/
def dbVisitFields : Nat → List (String × Table) → String → List Row → DbSt →
    Except String DbSt
  | 0, _, _, _, _ => .error "fuel exhausted"
  | _ + 1, _, _, [], st => .ok st
  | fuel + 1, ntt, tname, f :: fs, st =>
    match dictGet f "references" with
    | none => dbVisitFields fuel ntt tname fs st
    | some refV =>
      if !truthy refV then dbVisitFields fuel ntt tname fs st
      else match refV with
      | .obj ref =>
        (match dictGet ref "table" with
         | some (.str p) =>
             if p ≠ "" && p ≠ tname then
               match dbVisit fuel ntt p st with
               | .error e => .error e
               | .ok st2 => dbVisitFields fuel ntt tname fs st2
             else dbVisitFields fuel ntt tname fs st
         | some _ => dbVisitFields fuel ntt tname fs st
         | none => dbVisitFields fuel ntt tname fs st)
      | _ => .error "AttributeError: references has no attribute get"

end

/-- Fuel bound for the DFS: twice the total size of the table list. -/
def dbFuel (tables : List Table) : Nat :=
  2 * tables.foldl (fun a t => a + 1 + t.fields.length) 0 + 4

/-- The top-level loop `for table in tables: if visited.get(name) != 1:
visit(name)`. -/
def dbTopLoop (fuel : Nat) (ntt : List (String × Table)) :
    List Table → DbSt → Except String DbSt
  | [], st => .ok st
  | t :: ts, st =>
      if alGet st.visited t.table_name = some 1 then dbTopLoop fuel ntt ts st
      else
        match dbVisit fuel ntt t.table_name st with
        | .error e => .error e
        | .ok st2 => dbTopLoop fuel ntt ts st2

/-- `DatabaseTestDataGenerator._topo_sort_tables`. -/
def topo_sort_tables_dfs (tables : List Table) : Except String (List Table) :=
  let ntt := nameToTable tables
  match dbTopLoop (dbFuel tables) ntt tables ⟨[], []⟩ with
  | .error e => .error e
  | .ok st => .ok st.order

/-! ### `parse_selenium_script` (src/selenium_llm_parser.py lines 10-223)

Modelled from the result of `llm.invoke` onward (`llmResult` is an
exception or the response text); the surrounding `try` turns any raised
exception into `([], "LLM parsing failed: ...")`.  The body reuses the
NDJSON reassembly, the balanced-array extractor, its regex fallback and
`_clean_json_response`, then normalizes each parsed dict item. -/

/-- Python `a or b` on dynamic values. -/
def pyOr (a b : Value) : Value := if truthy a then a else b

/-- Python `float(str)` grammar fragment: optional sign, digits around an
optional dot (at least one digit), optional exponent; surrounding
whitespace stripped.  (`inf`/`nan` spellings are not modelled; no input
here uses them.) -/
def pyFloatOfString (s : String) : Except String Rat :=
  let cs := (pyStrip s).toList
  let (neg, cs1) := match cs with
    | '-' :: rest => (true, rest)
    | '+' :: rest => (false, rest)
    | _ => (false, cs)
  let intDigits := cs1.takeWhile isDigit
  let cs2 := cs1.drop intDigits.length
  let (fracDigits, cs3) := match cs2 with
    | '.' :: rest => (rest.takeWhile isDigit, rest.dropWhile isDigit)
    | _ => ([], cs2)
  if intDigits.isEmpty && fracDigits.isEmpty then
    .error "ValueError: could not convert string to float"
  else
    match cs3 with
    | [] => .ok (mkJsonNum neg intDigits fracDigits none)
    | 'e' :: rest | 'E' :: rest =>
        let (eneg, rest2) := match rest with
          | '-' :: r => (true, r)
          | '+' :: r => (false, r)
          | _ => (false, rest)
        let eds := rest2.takeWhile isDigit
        if eds.isEmpty || !(rest2.drop eds.length).isEmpty then
          .error "ValueError: could not convert string to float"
        else .ok (mkJsonNum neg intDigits fracDigits (some (eneg, digitsToNat eds)))
    | _ => .error "ValueError: could not convert string to float"

/-- Python `float(v)`: numbers pass through, booleans become 0/1, strings
are parsed, anything else raises `TypeError`. -/
def pyFloat (v : Value) : Except String Rat :=
  match v with
  | .num q => .ok q
  | .bool b => .ok (if b then mkRat 1 1 else mkRat 0 1)
  | .str s => pyFloatOfString s
  | _ => .error "TypeError: float() argument must be a string or a number"

/-- One normalized field record. -/
structure NormField where
  name : String
  type : Value
  rules : Value
  description : Value
  example_ : Value
  confidence : Rat
deriving Repr

/-- Normalize one parsed item: non-dicts are skipped; a non-string `name`
raises `AttributeError` on `.strip()`; a bad `confidence` raises in
`float(...)`. -/
def normalizeItem (v : Value) : Except String (Option NormField) :=
  match v with
  | .obj kvs =>
      (match (dictGet kvs "name").getD (.str "") with
       | .str nm =>
          (match pyFloat ((dictGet kvs "confidence").getD (.num (mkRat 0 1))) with
           | .error e => .error e
           | .ok conf =>
              .ok (some
                { name := pyStrip nm
                  type := (dictGet kvs "type").getD (.str "string")
                  rules := pyOr ((dictGet kvs "rules").getD (.str "")) (.str "")
                  description := pyOr ((dictGet kvs "description").getD (.str "")) (.str "")
                  example_ := pyOr ((dictGet kvs "example").getD (.str "")) (.str "")
                  confidence := conf }))
       | _ => .error "AttributeError: strip is not defined on this value")
  | _ => .ok none

def normalizeItems : List Value → Except String (List NormField)
  | [] => .ok []
  | v :: vs =>
      match normalizeItem v with
      | .error e => .error e
      | .ok r =>
          match normalizeItems vs with
          | .error e => .error e
          | .ok rs => .ok (r.toList ++ rs)

/-- Python `s[:n]`. -/
def pyTake (n : Nat) (s : String) : String := (s.toList.take n).asString

/-- The `source_text` of `parse_selenium_script`
(`assembled if assembled else (resp or '')`, as in `generate_data`). -/
def selenium_source_text (resp : String) : String :=
  if assembleNdjson resp = "" then resp else assembleNdjson resp

/-- The cleaned `json_str` reaching the parse attempt of
`parse_selenium_script`. -/
def selenium_json_str (resp : String) : String :=
  let source_text := selenium_source_text resp
  let json_str :=
    match extract_first_json_array source_text with
    | some s => s
    | none =>
      match regex_first_to_last_bracket resp with
      | some s => s
      | none => pyStrip source_text
  clean_json_response json_str

/-- The guarded body of `parse_selenium_script` after `llm.invoke`
returned `resp`; early `return` statements are `.ok` results, raised
exceptions are `.error`. -/
def parse_selenium_script_body (resp : String) :
    Except String ((List NormField) × Option String) :=
  match jsonLoads (selenium_json_str resp) with
  | .error e =>
      .ok ([], some ("Failed to JSON-decode parser output: " ++ e ++
                     "\nRaw snippet:\n" ++ pyTake 1500 (selenium_source_text resp)))
  | .ok v =>
    match normalizeItems (wrapNonList v) with
    | .error e => .error e
    | .ok normalized =>
      if normalized.isEmpty then
        .ok ([], some ("No fields parsed from LLM output. Raw LLM snippet:\n" ++
                       pyTake 1500 (selenium_source_text resp)))
      else .ok (normalized, none)

/-- `parse_selenium_script`, parameterized by the outcome of the
`llm.invoke` call. -/
def parse_selenium_script (llmResult : Except String String) :
    (List NormField) × Option String :=
  match llmResult with
  | .error e => ([], some ("LLM parsing failed: " ++ e))
  | .ok resp =>
    match parse_selenium_script_body resp with
    | .error e => ([], some ("LLM parsing failed: " ++ e))
    | .ok r => r

/-- The current in-degree read the Kahn loop performs. -/
def degOf (deg : List (String × Int)) (n : String) : Int :=
  (alGet deg n).getD 0

/-- The relation the lexically sorted suffix satisfies: no later element
is strictly below an earlier one. -/
def strLe (a b : String) : Prop := strLtB b a = false

/-- A field whose `references` entry the graph build accepts without
raising: absent, falsy, or a dict. -/
def refOkB (f : Row) : Bool :=
  match dictGet f "references" with
  | none => true
  | some refV =>
      !truthy refV ||
      (match refV with
       | .obj _ => true
       | _ => false)

/-- Every field of every table has a well-formed `references` entry. -/
def wellFormedRefs (tables : List Table) : Bool :=
  tables.all (fun t => t.fields.all refOkB)

/-! ### Concrete inputs used by the claim theorems -/

/-- A foreign-key field dict `{name: nm, references: {table: pt, field: "id"}}`. -/
def fkRef (nm pt : String) : Row :=
  [("name", .str nm), ("references", .obj [("table", .str pt), ("field", .str "id")])]

/-- Table `b` with two FK fields referencing the same parent `c` (a
realistic schema: two columns referencing one table). -/
def tabB : Table := ⟨"b", [fkRef "f1" "c", fkRef "f2" "c"]⟩

/-- Table `a` with one FK field referencing `b`. -/
def tabA : Table := ⟨"a", [fkRef "g" "b"]⟩

/-- Table `c` with no FK fields. -/
def tabC : Table := ⟨"c", []⟩

/-- Tables `x` and `y` referencing each other (a two-cycle). -/
def tabX : Table := ⟨"x", [fkRef "fx" "y"]⟩

def tabY : Table := ⟨"y", [fkRef "fy" "x"]⟩

/-- Scenario D: a three-table cycle `tA → tB → tC → tA`. -/
def tabDA : Table := ⟨"tA", [fkRef "fa" "tB"]⟩

def tabDB : Table := ⟨"tB", [fkRef "fb" "tC"]⟩

def tabDC : Table := ⟨"tC", [fkRef "fc" "tA"]⟩

/-- The raw fragmented two-line chunk response of end-to-end scenario B:
`{"chunk":"[{\"a\":1},"}` then a newline then `{"chunk":"{\"a\":2}]"}`. -/
def scenarioB_raw : String :=
  "\x7b\"chunk\":\"[\x7b\\\"a\\\":1\x7d,\"\x7d\n\x7b\"chunk\":\"\x7b\\\"a\\\":2\x7d]\"\x7d"

/-- A response whose first parse fails but which the (dead) second repair
pass would fix: `[{"a": True}]`. -/
def respTrue : String := "[\x7b\"a\": True\x7d]"

/-! ## Helper lemmas -/

theorem alGet_alSet_self {α : Type} (kvs : List (String × α)) (k : String) (v : α) :
    alGet (alSet kvs k v) k = some v := by
  induction kvs with
  | nil => simp [alGet, alSet]
  | cons p rest ih =>
      obtain ⟨k0, v0⟩ := p
      by_cases h : k0 = k
      · simp [alGet, alSet, h]
      · simp [alGet, alSet, h, ih]

theorem alGet_alSet_ne {α : Type} (kvs : List (String × α)) (k k2 : String) (v : α)
    (h : k2 ≠ k) : alGet (alSet kvs k v) k2 = alGet kvs k2 := by
  have hk : ¬ k = k2 := fun hh => h hh.symm
  induction kvs with
  | nil => simp [alGet, alSet, hk]
  | cons p rest ih =>
      obtain ⟨k0, v0⟩ := p
      by_cases h0 : k0 = k
      · subst h0
        simp [alGet, alSet, hk]
      · simp [alGet, alSet, h0, ih]

theorem dictGet_dictSet_self (kvs : Row) (k : String) (v : Value) :
    dictGet (dictSet kvs k v) k = some v := by
  induction kvs with
  | nil => simp [dictGet, dictSet]
  | cons p rest ih =>
      obtain ⟨k0, v0⟩ := p
      by_cases h : k0 = k
      · simp [dictGet, dictSet, h]
      · simp [dictGet, dictSet, h, ih]

theorem dictGet_dictSet_ne (kvs : Row) (k k2 : String) (v : Value)
    (h : k2 ≠ k) : dictGet (dictSet kvs k v) k2 = dictGet kvs k2 := by
  have hk : ¬ k = k2 := fun hh => h hh.symm
  induction kvs with
  | nil => simp [dictGet, dictSet, hk]
  | cons p rest ih =>
      obtain ⟨k0, v0⟩ := p
      by_cases h0 : k0 = k
      · subst h0
        simp [dictGet, dictSet, hk]
      · simp [dictGet, dictSet, h0, ih]

theorem str_append_ne_empty (s t : String) (h : s ≠ "") : s ++ t ≠ "" := by
  intro hc
  apply h
  have hd : (s ++ t).data = s.data ++ t.data := String.data_append s t
  have : s.data ++ t.data = [] := by rw [← hd, hc]
  have hs : s.data = [] := (List.append_eq_nil.mp this).1
  cases s
  simp_all

/-! ## Claim C5 -/

/-- C5 counterexample: the pre-parse repair transform is NOT idempotent.
On `x = "[[["` one application yields `"[["` and a second yields `"["`:
the anchored doubled-bracket pass collapses only one level per run, so
`repair(repair(x)) ≠ repair(x)`. -/
theorem C5_counterexample :
    clean_json_response (clean_json_response "[[[") ≠ clean_json_response "[[[" := by
  decide

/-- C5 (amended): `_clean_json_response` is not idempotent in general —
each application collapses one level of a doubled outer bracket
(`repair("[[[") = "[["` and `repair("[[") = "["`); on a singly-doubled
well-formed input such as scenario C's `[[{"x":1}]]` the result
`[{"x":1}]` is a fixed point, so there `repair(repair(x)) = repair(x)`. -/
theorem C5_theorem :
    clean_json_response "[[[" = "[[" ∧
    clean_json_response "[[" = "[" ∧
    clean_json_response "[[\x7b\"x\":1\x7d]]" = "[\x7b\"x\":1\x7d]" ∧
    clean_json_response (clean_json_response "[[\x7b\"x\":1\x7d]]") =
      clean_json_response "[[\x7b\"x\":1\x7d]]" :=
  ⟨rfl, rfl, rfl, rfl⟩

/-! ## Claim C3 -/

/-- C3: the claim is right and the code is wrong.  `generate_data`
announces a second repair pass ("try a second repair pass if initial
parse fails") but the `raise` at src/data_generator.py line 309 makes the
repair block at lines 314-334 unreachable: on the response
`[{"a": True}]` the first parse fails and `generate_data` reports failure
to its caller without retrying, even though the dead second pass
(normalizing `True` to `true`) would make the text parse. -/
theorem C3_theorem :
    generate_data_core respTrue 5 =
      .error "Failed to parse JSON. LLM response format issue: Expecting value" ∧
    second_pass_repair (generate_data_json_str respTrue) = "[\x7b\"a\": true\x7d]" ∧
    jsonLoads (second_pass_repair (generate_data_json_str respTrue)) =
      .ok (.arr [.obj [("a", .bool true)]]) :=
  ⟨rfl, rfl, rfl⟩

/-! ## Claim C6 -/

/-- C6: the claim is right and the code is wrong.  The acyclic schema
`[tabB, tabA, tabC]` (edges `b → c` via two distinct FK fields and
`a → b`) makes the Kahn sorter count `in_degree[b] = 2` (one per FIELD)
while decrementing it only once (one per unique edge in the children
SET), so `b` is never dequeued: the sorter spuriously reports a cycle
(`remaining = ["b", "a"] ≠ []`) and emits the order `c, a, b`, placing
the child `a` strictly BEFORE its direct parent `b`. -/
theorem C6_theorem :
    topo_sort_tables_intel [tabB, tabA, tabC] =
      .ok ⟨[tabC, tabA, tabB], ["c", "a", "b"], ["b", "a"]⟩ ∧
    fieldParentIntel ["b", "a", "c"] "a" (fkRef "g" "b") = .ok (some "b") ∧
    ["c", "a", "b"].indexOf "a" < ["c", "a", "b"].indexOf "b" :=
  ⟨rfl, rfl, by decide⟩

/-! ## Claim C4 -/

/-- Inversion for one scanner step: a successful scan of `c :: cs` either
proceeds recursively with `c` consumed into the accumulator, or returns
at `c = ']'`. -/
theorem extractScan_cons_inv (c : Char) (cs acc : List Char) (depth : Int)
    (inStr esc : Bool) (out : List Char)
    (h : extractScan (c :: cs) acc depth inStr esc = some out) :
    (∃ d s e, extractScan cs (c :: acc) d s e = some out) ∨
      (c = ']' ∧ out = (c :: acc).reverse) := by
  simp only [extractScan] at h
  split_ifs at h
  all_goals
    first
      | exact Or.inl ⟨_, _, _, h⟩
      | exact Or.inr ⟨by assumption, (Option.some.inj h).symm⟩

/-- Every successful scan consumes a nonempty prefix of its input ending
at the returning `]`, and returns the accumulator followed by that
prefix. -/
theorem extractScan_shape (cs : List Char) :
    ∀ acc depth inStr esc out,
      extractScan cs acc depth inStr esc = some out →
      ∃ consumed rest, cs = consumed ++ rest ∧ out = acc.reverse ++ consumed ∧
        consumed ≠ [] ∧ consumed.getLast? = some ']' := by
  induction cs with
  | nil =>
      intro acc depth inStr esc out h
      simp [extractScan] at h
  | cons c cs ih =>
      intro acc depth inStr esc out h
      rcases extractScan_cons_inv c cs acc depth inStr esc out h with
        ⟨d, s, e, hrec⟩ | ⟨hc, hout⟩
      · obtain ⟨consumed, rest, hcs, houtv, hne, hlast⟩ := ih (c :: acc) d s e out hrec
        refine ⟨c :: consumed, rest, by simp [hcs], ?_, by simp, ?_⟩
        · simpa [List.append_assoc] using houtv
        · cases consumed with
          | nil => exact absurd rfl hne
          | cons x xs => simpa using hlast
      · subst hc
        refine ⟨[']'], cs, by simp, ?_, by simp, by simp⟩
        simp [hout]

/-- The head of a nonempty `dropWhile` result falsifies the predicate. -/
theorem dropWhile_head_false (p : Char → Bool) :
    ∀ (l : List Char) (c : Char) (r : List Char),
      l.dropWhile p = c :: r → p c = false := by
  intro l
  induction l with
  | nil => intro c r h; simp [List.dropWhile] at h
  | cons x xs ih =>
      intro c r h
      by_cases hx : p x
      · rw [List.dropWhile_cons_of_pos hx] at h
        exact ih c r h
      · rw [List.dropWhile_cons_of_neg hx] at h
        cases h
        simpa using hx

/-- C4 (amended): the scanner starts the span at the first occurrence of
`[` anywhere in the text — the quoted-string state is tracked only from
that point on, so a bracket lying inside a double-quoted string can open
the span.  Within the scanned region, brackets inside a double-quoted
string (with backslash escape handling) do not count toward depth, and a
returned span always begins at the text's first `[` (no `[` precedes it)
and ends at the `]` that balances it under that state; in particular, on
text containing `"a [weird] string"` followed by `[1,2]`, both scanners
return the span `[weird]` inside the quoted string, not `[1,2]`. -/
theorem C4_theorem :
    (extract_first_json_array "\"a [weird] string\" [1,2]" = some "[weird]" ∧
     find_first_json_array "\"a [weird] string\" [1,2]" = some "[weird]") ∧
    (∀ s t, extract_first_json_array s = some t →
      ∃ pre suf, s.toList = pre ++ t.toList ++ suf ∧
        (∀ c ∈ pre, c ≠ '[') ∧ t.toList.head? = some '[' ∧
        t.toList.getLast? = some ']') := by
  constructor
  · exact ⟨rfl, rfl⟩
  · intro s t h
    by_cases hs : s = ""
    · simp [extract_first_json_array, hs] at h
    · rw [extract_first_json_array, if_neg hs] at h
      split at h
      next => exact absurd h (by simp)
      next hdwne =>
        cases hdw : s.toList.dropWhile (isNot '[') with
        | nil => exact absurd hdw hdwne
        | cons c rest =>
          rw [hdw] at h
          obtain ⟨out, hout, hts⟩ := Option.map_eq_some.mp h
          obtain ⟨consumed, rest2, hcs, houtv, hne, hlast⟩ :=
            extractScan_shape (c :: rest) [] 0 false false out hout
          have hoc : out = consumed := by simpa using houtv
          have htl : t.toList = consumed := by
            rw [← hts, hoc]
            rfl
          refine ⟨s.toList.takeWhile (isNot '['), rest2, ?_, ?_, ?_, ?_⟩
          · rw [htl]
            have hsplit := (List.takeWhile_append_dropWhile
              (p := isNot '[') (l := s.toList)).symm
            rw [List.append_assoc, ← hcs, ← hdw]
            exact hsplit
          · intro x hxmem
            have hpx := List.mem_takeWhile_imp hxmem
            simpa [isNot] using hpx
          · rw [htl]
            have hchead : c = '[' := by
              have hfalse := dropWhile_head_false (isNot '[') s.toList c rest hdw
              simpa [isNot] using hfalse
            cases consumed with
            | nil => exact absurd rfl hne
            | cons y ys =>
                have hyc : y = c := by
                  have hcs2 := hcs
                  rw [List.cons_append] at hcs2
                  exact (List.cons.injEq ..).mp hcs2 |>.1.symm
                simp [hyc, hchead]
          · rw [htl]; exact hlast

/-- C4 counterexample: on the spec's own example text the scanner returns
the bracket region inside the quoted string, not the span of `[1,2]`. -/
theorem C4_counterexample :
    extract_first_json_array "\"a [weird] string\" [1,2]" = some "[weird]" ∧
    "[weird]" ≠ "[1,2]" :=
  ⟨rfl, by decide⟩

/-- C4 witness: the universal span-shape clause applied at the example. -/
theorem C4_witness :
    ∃ pre suf, ("\"a [weird] string\" [1,2]").toList =
        pre ++ ("[weird]").toList ++ suf ∧
      (∀ c ∈ pre, c ≠ '[') ∧ ("[weird]").toList.head? = some '[' ∧
      ("[weird]").toList.getLast? = some ']' :=
  C4_theorem.2 "\"a [weird] string\" [1,2]" "[weird]" rfl

/-! ## Claim C9 -/

/-- C9: whenever the single-table generation operation returns
successfully, the returned data list is the parsed record list truncated
to the first `num_records` entries (rows parsed beyond that are silently
discarded), the returned count equals the length of the returned data
list, and that length is at most `num_records` (it may be smaller when
fewer rows were parsed). -/
theorem C9_theorem (resp : String) (n : Nat) (r : GenResult)
    (hok : generate_data_core resp n = .ok r) :
    ∃ lst, generate_data_parsed resp = .ok lst ∧ r.data = lst.take n ∧
      r.count = r.data.length ∧ r.data.length ≤ n := by
  unfold generate_data_core at hok
  cases hp : generate_data_parsed resp with
  | error e => rw [hp] at hok; exact absurd hok (by simp)
  | ok lst =>
      rw [hp] at hok
      have hr : r = ⟨lst.take n, (lst.take n).length⟩ := (Except.ok.inj hok).symm
      subst hr
      exact ⟨lst, rfl, rfl, rfl, List.length_take_le n lst⟩

/-- C9 witness: a response parsing to three records with `num_records = 2`
returns exactly the first two records and count 2. -/
theorem C9_witness :
    ∃ lst, generate_data_parsed "[\x7b\"a\":1\x7d,\x7b\"a\":2\x7d,\x7b\"a\":3\x7d]" = .ok lst ∧
      (⟨[.obj [("a", pyInt 1)], .obj [("a", pyInt 2)]], 2⟩ : GenResult).data = lst.take 2 ∧
      (⟨[.obj [("a", pyInt 1)], .obj [("a", pyInt 2)]], 2⟩ : GenResult).count =
        (⟨[.obj [("a", pyInt 1)], .obj [("a", pyInt 2)]], 2⟩ : GenResult).data.length ∧
      (⟨[.obj [("a", pyInt 1)], .obj [("a", pyInt 2)]], 2⟩ : GenResult).data.length ≤ 2 :=
  C9_theorem "[\x7b\"a\":1\x7d,\x7b\"a\":2\x7d,\x7b\"a\":3\x7d]" 2
    ⟨[.obj [("a", pyInt 1)], .obj [("a", pyInt 2)]], 2⟩ rfl

/-! ## Claim C10 -/

/-- The guarded body only ever returns an empty list with a non-empty
message, or a non-empty list with no message. -/
theorem parse_selenium_body_shape (resp : String) (pr : (List NormField) × Option String)
    (hb : parse_selenium_script_body resp = .ok pr) :
    (pr.1 = [] ∧ ∃ e, pr.2 = some e ∧ e ≠ "") ∨ (pr.1 ≠ [] ∧ pr.2 = none) := by
  unfold parse_selenium_script_body at hb
  cases hj : jsonLoads (selenium_json_str resp) with
  | error e =>
      simp only [hj] at hb
      left
      have hpr := (Except.ok.inj hb).symm
      subst hpr
      refine ⟨rfl, _, rfl, ?_⟩
      exact str_append_ne_empty _ _
        (str_append_ne_empty _ _ (str_append_ne_empty _ _ (by decide)))
  | ok v =>
      simp only [hj] at hb
      cases hn : normalizeItems (wrapNonList v) with
      | error e =>
          simp only [hn] at hb
          exact absurd hb (by simp)
      | ok normalized =>
          simp only [hn] at hb
          by_cases hne : normalized.isEmpty
          · rw [if_pos hne] at hb
            left
            have hpr := (Except.ok.inj hb).symm
            subst hpr
            exact ⟨rfl, _, rfl, str_append_ne_empty _ _ (by decide)⟩
          · rw [if_neg hne] at hb
            right
            have hpr := (Except.ok.inj hb).symm
            subst hpr
            exact ⟨by simpa using hne, rfl⟩

/-- C10: the Selenium-script parsing operation never raises to its
caller: for every outcome of the LLM call (an exception or any response
text), it returns either an empty list paired with a non-empty diagnostic
error string, or a non-empty list of normalized field records (each
carrying name, type, rules, description, example and a rational-modelled
float confidence by construction of `NormField`) paired with no error. -/
theorem C10_theorem (llmResult : Except String String) :
    ((parse_selenium_script llmResult).1 = [] ∧
      ∃ e, (parse_selenium_script llmResult).2 = some e ∧ e ≠ "") ∨
    ((parse_selenium_script llmResult).1 ≠ [] ∧
      (parse_selenium_script llmResult).2 = none) := by
  cases llmResult with
  | error e =>
      left
      exact ⟨rfl, "LLM parsing failed: " ++ e, rfl,
             str_append_ne_empty _ _ (by decide)⟩
  | ok resp =>
      unfold parse_selenium_script
      cases hb : parse_selenium_script_body resp with
      | error e =>
          simp only [hb]
          left
          refine ⟨by simp, "LLM parsing failed: " ++ e, by simp,
                  str_append_ne_empty _ _ (by decide)⟩
      | ok pr =>
          simp only [hb]
          exact parse_selenium_body_shape resp pr hb

/-! ## Claims C8 and C2: injection lemmas -/

theorem okPair_inj {a c : List Row} {b d : Nat}
    (h : (Except.ok (a, b) : Except String (List Row × Nat)) = .ok (c, d)) :
    c = a ∧ d = b :=
  have h2 := Except.ok.inj h
  ⟨(congrArg Prod.fst h2).symm, (congrArg Prod.snd h2).symm⟩

/-- A successful resolve returns the field's own (string) name. -/
theorem resolveFk_name (gen : List (String × List Row)) (f : Row)
    (nm pt : String) (pk : List Value)
    (h : resolveFk gen f = .ok (some (nm, pt, pk))) :
    dictGet f "name" = some (.str nm) := by
  unfold resolveFk at h
  repeat' split at h
  all_goals
    first
      | { have h3 := congrArg Prod.fst (Option.some.inj (Except.ok.inj h))
          subst h3
          assumption }
      | exact absurd h (by simp)

theorem injectRows_length (rows : List Row) (nm : String) (f : Row)
    (pk : List Value) (pt : String) (cc : Nat) (rand : Nat → Nat) (ctr : Nat) :
    (injectRows rows nm f pk pt cc rand ctr).length = rows.length := by
  simp [injectRows]

theorem injectRows_getElem (rows : List Row) (nm : String) (f : Row)
    (pk : List Value) (pt : String) (cc : Nat) (rand : Nat → Nat) (ctr : Nat)
    (i : Nat) :
    (injectRows rows nm f pk pt cc rand ctr)[i]? =
      (rows[i]?).map (fun r =>
        if i < cc then dictSet r nm (pyChoice pk (rand (ctr + i)))
        else dictSet r nm (sentinelFor f pt i)) := by
  simp only [injectRows, List.getElem?_map, List.getElem?_enum, Option.map_map]
  cases rows[i]? <;> simp

theorem injectRows_col_other (rows : List Row) (nm : String) (f : Row)
    (pk : List Value) (pt : String) (cc : Nat) (rand : Nat → Nat) (ctr : Nat)
    (p : String) (hne : nm ≠ p) (i : Nat) :
    ((injectRows rows nm f pk pt cc rand ctr)[i]?).map (fun r => dictGet r p) =
      (rows[i]?).map (fun r => dictGet r p) := by
  rw [injectRows_getElem]
  cases rows[i]? with
  | none => rfl
  | some r =>
      simp only [Option.map_some']
      congr 1
      split <;> exact dictGet_dictSet_ne _ _ _ _ (fun hh => hne hh.symm)

theorem pyChoice_mem (ks : List Value) (r : Nat) (h : ks ≠ []) :
    pyChoice ks r ∈ ks := by
  unfold pyChoice
  have hlen : 0 < ks.length := List.length_pos.mpr h
  have hlt : r % ks.length < ks.length := Nat.mod_lt r hlen
  rw [List.getD_eq_getElem ks .null hlt]
  exact List.getElem_mem hlt

/-- Column `p` and the row count survive one intelligent-injector field
when `pk_field = p` is a non-empty primary-key name. -/
theorem injectFieldIntel_col (gen : List (String × List Row)) (cc : Nat)
    (p : String) (rand : Nat → Nat) (rows : List Row) (ctr : Nat) (f : Row)
    (rows2 : List Row) (ctr2 : Nat) (hp : p ≠ "")
    (h : injectFieldIntel gen cc (some p) rand rows ctr f = .ok (rows2, ctr2)) :
    rows2.length = rows.length ∧
      ∀ i : Nat, (rows2[i]?).map (fun r => dictGet r p) =
        (rows[i]?).map (fun r => dictGet r p) := by
  unfold injectFieldIntel at h
  split at h
  · exact absurd h (by simp)
  · obtain ⟨h1, _⟩ := okPair_inj h
    subst h1
    exact ⟨rfl, fun _ => rfl⟩
  · next nm pt pk _ =>
      split at h
      · obtain ⟨h1, _⟩ := okPair_inj h
        subst h1
        exact ⟨rfl, fun _ => rfl⟩
      · next hg =>
          have hnm : nm ≠ p := by
            intro hEq
            apply hg
            simp [pkGuardHit, hEq, hp]
          obtain ⟨h1, _⟩ := okPair_inj h
          subst h1
          exact ⟨injectRows_length .., fun i =>
            injectRows_col_other _ _ _ _ _ _ _ _ _ hnm i⟩

/-- Column `p` and the row count survive the whole intelligent injector. -/
theorem injectFieldsIntel_col (gen : List (String × List Row)) (cc : Nat)
    (p : String) (rand : Nat → Nat) (hp : p ≠ "") :
    ∀ (fs : List Row) (rows : List Row) (ctr : Nat) (rows2 : List Row),
      injectFieldsIntel gen cc (some p) rand fs rows ctr = .ok rows2 →
      rows2.length = rows.length ∧
        ∀ i : Nat, (rows2[i]?).map (fun r => dictGet r p) =
          (rows[i]?).map (fun r => dictGet r p) := by
  intro fs
  induction fs with
  | nil =>
      intro rows ctr rows2 h
      have h1 := Except.ok.inj h
      subst h1
      exact ⟨rfl, fun _ => rfl⟩
  | cons f fs ih =>
      intro rows ctr rows2 h
      unfold injectFieldsIntel at h
      split at h
      · exact absurd h (by simp)
      · next rows1 ctr1 hf =>
          obtain ⟨hlen1, hcol1⟩ :=
            injectFieldIntel_col gen cc p rand rows ctr f rows1 ctr1 hp hf
          obtain ⟨hlen2, hcol2⟩ := ih rows1 ctr1 rows2 h
          exact ⟨hlen2.trans hlen1, fun i => (hcol2 i).trans (hcol1 i)⟩

/-- C8 (amended): the intelligent injector never overwrites the table's
own primary key — for every FK field whose name equals the (non-empty)
`pk_field` the guard at lines 860-863 skips injection, and no other field
writes that column, so the sequential primary keys assigned beforehand
survive the whole injection verbatim; the db_generator injector has no
such guard and does overwrite the primary key (see the
counterexample). -/
theorem C8_theorem (rows : List Row) (fkFields : List Row)
    (gen : List (String × List Row)) (cc : Nat) (p : String) (start : Int)
    (rand : Nat → Nat) (rows2 : List Row) (hp : p ≠ "")
    (hok : inject_foreign_keys_intel (generate_primary_keys rows p start)
             fkFields gen cc (some p) rand = .ok rows2) :
    rows2.length = rows.length ∧
      ∀ i : Nat, i < rows.length →
        ∃ r, rows2[i]? = some r ∧ dictGet r p = some (pyInt (start + i)) := by
  obtain ⟨hlen, hcol⟩ :=
    injectFieldsIntel_col gen cc p rand hp fkFields
      (generate_primary_keys rows p start) 0 rows2 hok
  have hgplen : (generate_primary_keys rows p start).length = rows.length := by
    simp [generate_primary_keys]
  constructor
  · exact hlen.trans hgplen
  · intro i hi
    have hgp : (generate_primary_keys rows p start)[i]? =
        (rows[i]?).map (fun r => dictSet r p (pyInt (start + i))) := by
      simp only [generate_primary_keys, List.getElem?_map, List.getElem?_enum,
        Option.map_map]
      cases rows[i]? <;> simp
    obtain ⟨r0, hr0⟩ : ∃ r0, rows[i]? = some r0 :=
      ⟨rows[i], List.getElem?_eq_getElem hi⟩
    have hcoli := hcol i
    rw [hgp, hr0] at hcoli
    have hlt2 : i < rows2.length := by rw [hlen.trans hgplen]; exact hi
    obtain ⟨r2, hr2⟩ : ∃ r2, rows2[i]? = some r2 :=
      ⟨rows2[i], List.getElem?_eq_getElem hlt2⟩
    rw [hr2] at hcoli
    simp only [Option.map_some'] at hcoli
    refine ⟨r2, hr2, ?_⟩
    rw [Option.some.inj hcoli]
    exact dictGet_dictSet_self r0 p (pyInt (start + i))

/-- C8 counterexample: the db_generator injector (also named by the
claim) has no primary-key guard: with primary keys 1, 2 previously
assigned and an FK field named `id` (the PK name), injection overwrites
both rows' primary keys with the parent key 7 instead of skipping. -/
theorem C8_counterexample :
    inject_foreign_keys_db (generate_primary_keys [[], []] "id" 1)
        [[("name", .str "id"), ("type", .str "integer"),
          ("references", .obj [("table", .str "p"), ("field", .str "pid")])]]
        [("p", [[("pid", pyInt 7)]])] 2 (fun _ => 0) =
      .ok [[("id", pyInt 7)], [("id", pyInt 7)]] ∧
    some (pyInt 7) ≠ some (pyInt 1) := by
  constructor
  · rfl
  · intro hcontra
    have h2 := Option.some.inj hcontra
    have h3 : mkRat 7 1 = mkRat 1 1 := by
      have h4 := congrArg (fun v => match v with | Value.num q => q | _ => 0) h2
      simp at h4
      exact h4
    exact absurd h3 (by decide)

/-- C8 witness: with primary keys 1, 2 assigned and one FK field named
like the PK, the intelligent injector leaves both keys unchanged. -/
theorem C8_witness :
    ([[("id", pyInt 1)], [("id", pyInt 2)]] : List Row).length =
        ([[], []] : List Row).length ∧
      ∀ i : Nat, i < ([[], []] : List Row).length →
        ∃ r, ([[("id", pyInt 1)], [("id", pyInt 2)]] : List Row)[i]? = some r ∧
          dictGet r "id" = some (pyInt (1 + i)) :=
  C8_theorem [[], []]
    [[("name", .str "id"), ("type", .str "integer"),
      ("references", .obj [("table", .str "p"), ("field", .str "pid")])]]
    [("p", [[("pid", pyInt 7)]])] 2 "id" 1 (fun _ => 0)
    [[("id", pyInt 1)], [("id", pyInt 2)]] (by decide) rfl

/-! ## Claim C2 -/

theorem isEmpty_false_of_ne {α : Type} (l : List α) (h : l ≠ []) :
    l.isEmpty = false := by
  cases l with
  | nil => exact absurd rfl h
  | cons a as => rfl

/-- Resolution of a well-formed FK field with a non-empty observed parent
key set succeeds with the observed keys. -/
theorem resolveFk_spec (gen : List (String × List Row)) (f ref : Row)
    (nm pt pfn : String)
    (hname : dictGet f "name" = some (.str nm))
    (href : dictGet f "references" = some (.obj ref))
    (hrefne : ref ≠ [])
    (htab : dictGet ref "table" = some (.str pt))
    (hfld : (dictGet ref "field").getD (.str "id") = .str pfn)
    (hpr : ((alGet gen pt).getD []) ≠ [])
    (hpk : ((alGet gen pt).getD []).filterMap (fun q => dictGet q pfn) ≠ []) :
    resolveFk gen f =
      .ok (some (nm, pt, ((alGet gen pt).getD []).filterMap (fun q => dictGet q pfn))) := by
  unfold resolveFk
  rw [hname, href]
  simp only [truthy, isEmpty_false_of_ne _ hrefne, Bool.not_false, Bool.not_true,
    if_false, htab, hfld, isEmpty_false_of_ne _ hpr, isEmpty_false_of_ne _ hpk]
  rfl

/-- A successful db-injector step for one FK field whose resolution
yields no write (a `continue`), or a write with a name other than `nm`,
preserves the `nm` column and the row count. -/
theorem injectFieldDb_col_other (gen : List (String × List Row)) (cc : Nat)
    (rand : Nat → Nat) (rows : List Row) (ctr : Nat) (g : Row)
    (rows2 : List Row) (ctr2 : Nat) (nm : String)
    (hother : dictGet g "name" ≠ some (.str nm))
    (h : injectFieldDb gen cc rand rows ctr g = .ok (rows2, ctr2)) :
    rows2.length = rows.length ∧
      ∀ i : Nat, (rows2[i]?).map (fun r => dictGet r nm) =
        (rows[i]?).map (fun r => dictGet r nm) := by
  unfold injectFieldDb at h
  split at h
  · exact absurd h (by simp)
  · obtain ⟨h1, _⟩ := okPair_inj h
    subst h1
    exact ⟨rfl, fun _ => rfl⟩
  · next nm2 pt2 pk2 heq =>
      have hname := resolveFk_name gen g nm2 pt2 pk2 heq
      have hneq : nm2 ≠ nm := by
        intro hEq
        exact hother (hEq ▸ hname)
      obtain ⟨h1, _⟩ := okPair_inj h
      subst h1
      exact ⟨injectRows_length .., fun i =>
        injectRows_col_other _ _ _ _ _ _ _ _ _ hneq i⟩

/-- The db injector over a list of fields none of which is named `nm`
preserves the `nm` column and the row count. -/
theorem injectFieldsDb_col_other (gen : List (String × List Row)) (cc : Nat)
    (rand : Nat → Nat) (nm : String) :
    ∀ (gs : List Row) (rows : List Row) (ctr : Nat) (rows2 : List Row),
      (∀ g ∈ gs, dictGet g "name" ≠ some (.str nm)) →
      injectFieldsDb gen cc rand gs rows ctr = .ok rows2 →
      rows2.length = rows.length ∧
        ∀ i : Nat, (rows2[i]?).map (fun r => dictGet r nm) =
          (rows[i]?).map (fun r => dictGet r nm) := by
  intro gs
  induction gs with
  | nil =>
      intro rows ctr rows2 _ h
      have h1 := Except.ok.inj h
      subst h1
      exact ⟨rfl, fun _ => rfl⟩
  | cons g gs ih =>
      intro rows ctr rows2 hothers h
      unfold injectFieldsDb at h
      split at h
      · exact absurd h (by simp)
      · next rows1 ctr1 hg =>
          obtain ⟨hlen1, hcol1⟩ :=
            injectFieldDb_col_other gen cc rand rows ctr g rows1 ctr1 nm
              (hothers g (by simp)) hg
          obtain ⟨hlen2, hcol2⟩ :=
            ih rows1 ctr1 rows2 (fun g2 hg2 => hothers g2 (by simp [hg2])) h
          exact ⟨hlen2.trans hlen1, fun i => (hcol2 i).trans (hcol1 i)⟩

/-- One db-injector step at a field that resolves to a write. -/
theorem injectFieldDb_at (gen : List (String × List Row)) (cc : Nat)
    (rand : Nat → Nat) (rows : List Row) (ctr : Nat) (f : Row)
    (nm pt : String) (pkeys : List Value)
    (hres : resolveFk gen f = .ok (some (nm, pt, pkeys))) :
    injectFieldDb gen cc rand rows ctr f =
      .ok (injectRows rows nm f pkeys pt cc rand ctr,
           ctr + min rows.length cc) := by
  unfold injectFieldDb
  rw [hres]

/-- The inductive core of C2, generalized over the starting rows and the
choice-call counter. -/
theorem C2_aux (gen : List (String × List Row)) (cc : Nat) (rand : Nat → Nat)
    (f ref : Row) (nm pt pfn : String)
    (hname : dictGet f "name" = some (.str nm))
    (href : dictGet f "references" = some (.obj ref))
    (hrefne : ref ≠ [])
    (htab : dictGet ref "table" = some (.str pt))
    (hfld : (dictGet ref "field").getD (.str "id") = .str pfn)
    (hpr : ((alGet gen pt).getD []) ≠ [])
    (hpk : ((alGet gen pt).getD []).filterMap (fun q => dictGet q pfn) ≠ []) :
    ∀ (pre : List Row), (∀ g ∈ pre, dictGet g "name" ≠ some (.str nm)) →
    ∀ (post : List Row), (∀ g ∈ post, dictGet g "name" ≠ some (.str nm)) →
    ∀ (rows : List Row) (ctr : Nat) (rows2 : List Row),
      injectFieldsDb gen cc rand (pre ++ f :: post) rows ctr = .ok rows2 →
      rows2.length = rows.length ∧
        ∀ i : Nat, i < rows2.length →
          ∃ r, rows2[i]? = some r ∧
            (i < cc →
              ∃ v, dictGet r nm = some v ∧
                v ∈ ((alGet gen pt).getD []).filterMap (fun q => dictGet q pfn)) ∧
            (cc ≤ i → dictGet r nm = some (sentinelFor f pt i)) := by
  intro pre
  induction pre with
  | nil =>
      intro _ post hpost rows ctr rows2 h
      rw [List.nil_append] at h
      unfold injectFieldsDb at h
      rw [injectFieldDb_at gen cc rand rows ctr f nm pt _
            (resolveFk_spec gen f ref nm pt pfn hname href hrefne htab hfld hpr hpk)] at h
      obtain ⟨hlen2, hcol2⟩ :=
        injectFieldsDb_col_other gen cc rand nm post _ _ rows2 hpost h
      have hlenF : (injectRows rows nm f
          (((alGet gen pt).getD []).filterMap (fun q => dictGet q pfn))
          pt cc rand ctr).length = rows.length := injectRows_length ..
      refine ⟨hlen2.trans hlenF, ?_⟩
      intro i hi
      obtain ⟨r2, hr2⟩ : ∃ r2, rows2[i]? = some r2 :=
        ⟨rows2[i], List.getElem?_eq_getElem hi⟩
      have hir : i < rows.length := by
        rw [← hlenF, ← hlen2]; exact hi
      obtain ⟨r0, hr0⟩ : ∃ r0, rows[i]? = some r0 :=
        ⟨rows[i], List.getElem?_eq_getElem hir⟩
      have hcoli := hcol2 i
      rw [hr2, injectRows_getElem, hr0] at hcoli
      simp only [Option.map_some'] at hcoli
      have hval := Option.some.inj hcoli
      refine ⟨r2, hr2, ?_, ?_⟩
      · intro hicc
        rw [if_pos hicc] at hval
        rw [hval, dictGet_dictSet_self]
        exact ⟨_, rfl, pyChoice_mem _ _ hpk⟩
      · intro hicc
        rw [if_neg (Nat.not_lt.mpr hicc)] at hval
        rw [hval, dictGet_dictSet_self]
  | cons g pre ih =>
      intro hpre post hpost rows ctr rows2 h
      rw [List.cons_append] at h
      unfold injectFieldsDb at h
      split at h
      · exact absurd h (by simp)
      · next rows1 ctr1 hg =>
          obtain ⟨hlen1, _⟩ :=
            injectFieldDb_col_other gen cc rand rows ctr g rows1 ctr1 nm
              (hpre g (by simp)) hg
          obtain ⟨hlen2, hvals⟩ :=
            ih (fun g2 hg2 => hpre g2 (by simp [hg2])) post hpost rows1 ctr1 rows2 h
          exact ⟨hlen2.trans hlen1, hvals⟩

/-- C2 (amended): for every FK field whose referenced parent table has a
non-empty observed key set, injection sets the FK of each row with index
in `[0, validCount)` to a value belonging to the observed parent key set,
and sets the FK of each row with index in `[validCount, len(rows))` to
the sentinel `999999 + index` (integer/number-typed FKs) or the tagged
string `INVALID_FK_<PARENT>_<index>`; the sentinel is a fixed value
independent of the parent keys, so it is absent from the observed parent
key set whenever that set does not itself contain it — but NOT in
general (see the counterexample, where the parent key 1000000 equals the
sentinel `999999 + 1`). -/
theorem C2_theorem (rows : List Row) (gen : List (String × List Row)) (cc : Nat)
    (rand : Nat → Nat) (pre post : List Row) (f ref : Row)
    (nm pt pfn : String) (rows2 : List Row)
    (hname : dictGet f "name" = some (.str nm))
    (href : dictGet f "references" = some (.obj ref))
    (hrefne : ref ≠ [])
    (htab : dictGet ref "table" = some (.str pt))
    (hfld : (dictGet ref "field").getD (.str "id") = .str pfn)
    (hpr : ((alGet gen pt).getD []) ≠ [])
    (hpk : ((alGet gen pt).getD []).filterMap (fun q => dictGet q pfn) ≠ [])
    (hothers : ∀ g ∈ pre ++ post, dictGet g "name" ≠ some (.str nm))
    (hok : inject_foreign_keys_db rows (pre ++ f :: post) gen cc rand = .ok rows2) :
    rows2.length = rows.length ∧
      ∀ i : Nat, i < rows2.length →
        ∃ r, rows2[i]? = some r ∧
          (i < cc →
            ∃ v, dictGet r nm = some v ∧
              v ∈ ((alGet gen pt).getD []).filterMap (fun q => dictGet q pfn)) ∧
          (cc ≤ i →
            dictGet r nm = some (sentinelFor f pt i) ∧
            (sentinelFor f pt i ∉
                ((alGet gen pt).getD []).filterMap (fun q => dictGet q pfn) →
              ∀ v, dictGet r nm = some v →
                v ∉ ((alGet gen pt).getD []).filterMap (fun q => dictGet q pfn))) := by
  have hothersPre : ∀ g ∈ pre, dictGet g "name" ≠ some (.str nm) :=
    fun g hg => hothers g (by simp [hg])
  have hothersPost : ∀ g ∈ post, dictGet g "name" ≠ some (.str nm) :=
    fun g hg => hothers g (by simp [hg])
  obtain ⟨hlen, hvals⟩ :=
    C2_aux gen cc rand f ref nm pt pfn hname href hrefne htab hfld hpr hpk
      pre hothersPre post hothersPost rows 0 rows2 hok
  refine ⟨hlen, ?_⟩
  intro i hi
  obtain ⟨r, hr, hvalid, hinvalid⟩ := hvals i hi
  refine ⟨r, hr, hvalid, ?_⟩
  intro hicc
  refine ⟨hinvalid hicc, ?_⟩
  intro habs v hv
  rw [hinvalid hicc] at hv
  rw [← Option.some.inj hv]
  exact habs

/-- C2 counterexample: with observed parent key set `{1000000}` and
`validCount = 1` on two rows, the "invalid" row 1 receives the sentinel
`999999 + 1 = 1000000`, which IS a member of the observed parent key
set — the claimed unconditional absence fails. -/
theorem C2_counterexample :
    inject_foreign_keys_db [[], []]
        [[("name", .str "ref"), ("type", .str "integer"),
          ("references", .obj [("table", .str "p"), ("field", .str "pid")])]]
        [("p", [[("pid", pyInt 1000000)]])] 1 (fun _ => 0) =
      .ok [[("ref", pyInt 1000000)], [("ref", pyInt 1000000)]] ∧
    sentinelFor
        [("name", .str "ref"), ("type", .str "integer"),
         ("references", .obj [("table", .str "p"), ("field", .str "pid")])]
        "p" 1 = pyInt 1000000 ∧
    pyInt 1000000 ∈
      (((alGet [("p", [[("pid", pyInt 1000000)]])] "p").getD []).filterMap
        (fun q => dictGet q "pid")) := by
  refine ⟨rfl, rfl, ?_⟩
  show pyInt 1000000 ∈ [pyInt 1000000]
  exact List.mem_singleton.mpr rfl

/-- C2 witness: the amended theorem applied at a two-row, one-field call
with parent keys `{7}` and `validCount = 1`. -/
theorem C2_witness :
    ∃ rows2, inject_foreign_keys_db [[], []]
        [[("name", .str "ref"), ("type", .str "integer"),
          ("references", .obj [("table", .str "p"), ("field", .str "pid")])]]
        [("p", [[("pid", pyInt 7)]])] 1 (fun _ => 0) = .ok rows2 ∧
      (rows2.length = ([[], []] : List Row).length ∧
        ∀ i : Nat, i < rows2.length →
          ∃ r, rows2[i]? = some r ∧
            (i < 1 →
              ∃ v, dictGet r "ref" = some v ∧
                v ∈ ((alGet [("p", [[("pid", pyInt 7)]])] "p").getD []).filterMap
                    (fun q => dictGet q "pid")) ∧
            (1 ≤ i →
              dictGet r "ref" = some (sentinelFor
                [("name", .str "ref"), ("type", .str "integer"),
                 ("references", .obj [("table", .str "p"), ("field", .str "pid")])]
                "p" i) ∧
              (sentinelFor
                  [("name", .str "ref"), ("type", .str "integer"),
                   ("references", .obj [("table", .str "p"), ("field", .str "pid")])]
                  "p" i ∉
                  ((alGet [("p", [[("pid", pyInt 7)]])] "p").getD []).filterMap
                    (fun q => dictGet q "pid") →
                ∀ v, dictGet r "ref" = some v →
                  v ∉ ((alGet [("p", [[("pid", pyInt 7)]])] "p").getD []).filterMap
                      (fun q => dictGet q "pid")))) :=
  ⟨[[("ref", pyInt 7)], [("ref", pyInt 1000000)]], rfl,
    C2_theorem [[], []] [("p", [[("pid", pyInt 7)]])] 1 (fun _ => 0) [] []
      [("name", .str "ref"), ("type", .str "integer"),
       ("references", .obj [("table", .str "p"), ("field", .str "pid")])]
      [("table", .str "p"), ("field", .str "pid")]
      "ref" "p" "pid" [[("ref", pyInt 7)], [("ref", pyInt 1000000)]]
      rfl rfl (by simp) rfl rfl
      (by show ¬([[("pid", pyInt 7)]] : List Row) = []; simp)
      (by show ¬([pyInt 7] : List Value) = []; simp)
      (by intro g hg; simp at hg) rfl⟩

/-! ## Claim C7 -/

/-- C7: reassembly processes the response line by line — a line that
fails to parse is ignored and never aborts reassembly of the remaining
lines (dropping it leaves the result unchanged); lines that parse as
objects carrying the designated payload field contribute exactly their
payload text, concatenated in line order; when the accumulator ends empty
the raw response is used verbatim; and the fragmented two-line chunk
response of scenario B reassembles through `invoke` to the array
`[{"a":1},{"a":2}]`, which parses successfully. -/
theorem C7_theorem :
    (∀ (ls1 ls2 : List String) (b : String),
        (∃ e, jsonLoads (pyStrip b) = .error e) →
        assembleLines (ls1 ++ b :: ls2) = assembleLines (ls1 ++ ls2)) ∧
    (∀ (ls cs : List String),
        List.Forall₂ (fun l c => pyStrip l ≠ "" ∧
          ∃ kvs, jsonLoads (pyStrip l) = .ok (.obj kvs) ∧
            dictGet kvs "response" = some (.str c)) ls cs →
        assembleLines ls = strConcat cs) ∧
    (∀ resp, assembleNdjson resp = "" → source_for_extraction resp = resp) ∧
    invoke_from_body scenarioB_raw = .ok "[\x7b\"a\":1\x7d,\x7b\"a\":2\x7d]" ∧
    jsonLoads "[\x7b\"a\":1\x7d,\x7b\"a\":2\x7d]" =
      .ok (.arr [.obj [("a", pyInt 1)], .obj [("a", pyInt 2)]]) := by
  refine ⟨?_, ?_, ?_, rfl, rfl⟩
  · intro ls1 ls2 b hfail
    have hchunk : lineChunk b = none := by
      unfold lineChunk
      by_cases hstrip : pyStrip b = ""
      · simp [hstrip]
      · obtain ⟨e, he⟩ := hfail
        simp [hstrip, he]
    unfold assembleLines
    rw [List.filterMap_append, List.filterMap_append, List.filterMap_cons, hchunk]
  · intro ls cs hfa
    induction hfa with
    | nil => rfl
    | cons hrel hfa ih =>
        next l c ls2 cs2 =>
          obtain ⟨hne, kvs, hok, hresp⟩ := hrel
          have hchunk : lineChunk l = some c := by
            unfold lineChunk
            simp [hne, hok, hresp]
          unfold assembleLines at ih ⊢
          rw [List.filterMap_cons, hchunk]
          show strConcat (c :: _) = _
          unfold strConcat
          rw [ih]
  · intro resp h
    unfold source_for_extraction
    rw [if_pos h]

/-- C7 witness: a payload line, a non-parsing line and another payload
line reassemble to the ordered concatenation of the two payloads. -/
theorem C7_witness :
    assembleLines
        ["\x7b\"response\":\"abc\"\x7d", "oops", "\x7b\"response\":\"def\"\x7d"]
      = "abcdef" := by
  have h1 := C7_theorem.1 ["\x7b\"response\":\"abc\"\x7d"]
    ["\x7b\"response\":\"def\"\x7d"] "oops" ⟨"Expecting value", rfl⟩
  have h2 := C7_theorem.2.1
    ["\x7b\"response\":\"abc\"\x7d", "\x7b\"response\":\"def\"\x7d"] ["abc", "def"]
    (List.Forall₂.cons
      ⟨by decide, [("response", .str "abc")], rfl, rfl⟩
      (List.Forall₂.cons
        ⟨by decide, [("response", .str "def")], rfl, rfl⟩
        List.Forall₂.nil))
  calc assembleLines
        ["\x7b\"response\":\"abc\"\x7d", "oops", "\x7b\"response\":\"def\"\x7d"]
      = assembleLines
        ["\x7b\"response\":\"abc\"\x7d", "\x7b\"response\":\"def\"\x7d"] := h1
    _ = strConcat ["abc", "def"] := h2
    _ = "abcdef" := rfl

/-! ## Claim C1: infrastructure -/

theorem alGet_eq_some_mem {α : Type} :
    ∀ (kvs : List (String × α)) (k : String) (v : α),
      alGet kvs k = some v → (k, v) ∈ kvs := by
  intro kvs
  induction kvs with
  | nil => intro k v h; simp [alGet] at h
  | cons p rest ih =>
      intro k v h
      obtain ⟨k0, v0⟩ := p
      by_cases hk : k0 = k
      · subst hk
        simp only [alGet, if_pos rfl] at h
        simp [Option.some.inj h]
      · simp only [alGet, if_neg hk] at h
        exact List.mem_cons_of_mem _ (ih k v h)

theorem alGet_isSome_iff {α : Type} :
    ∀ (kvs : List (String × α)) (k : String),
      (alGet kvs k).isSome ↔ k ∈ kvs.map Prod.fst := by
  intro kvs
  induction kvs with
  | nil => intro k; simp [alGet]
  | cons p rest ih =>
      intro k
      obtain ⟨k0, v0⟩ := p
      by_cases hk : k0 = k
      · subst hk
        simp [alGet]
      · have h1 : alGet ((k0, v0) :: rest) k = alGet rest k := by
          simp [alGet, hk]
        rw [h1, ih]
        constructor
        · intro h; exact List.mem_cons_of_mem _ h
        · intro h
          rcases List.mem_cons.mp h with h2 | h3
          · exact absurd h2.symm hk
          · exact h3

theorem alSet_map_fst_of_mem {α : Type} :
    ∀ (kvs : List (String × α)) (k : String) (v : α),
      k ∈ kvs.map Prod.fst → (alSet kvs k v).map Prod.fst = kvs.map Prod.fst := by
  intro kvs
  induction kvs with
  | nil => intro k v h; simp at h
  | cons p rest ih =>
      intro k v h
      obtain ⟨k0, v0⟩ := p
      by_cases hk : k0 = k
      · subst hk
        simp [alSet]
      · have hmem : k ∈ rest.map Prod.fst := by
          rcases List.mem_map.mp h with ⟨q, hq, hfst⟩
          rcases List.mem_cons.mp hq with hq1 | hq2
          · subst hq1; exact absurd hfst hk
          · exact List.mem_map.mpr ⟨q, hq2, hfst⟩
        simp [alSet, hk, ih _ _ hmem]

theorem mem_alSet {α : Type} :
    ∀ (kvs : List (String × α)) (k : String) (v : α) (p : String × α),
      p ∈ alSet kvs k v → p = (k, v) ∨ p ∈ kvs := by
  intro kvs
  induction kvs with
  | nil =>
      intro k v p h
      simp [alSet] at h
      exact Or.inl h
  | cons q rest ih =>
      intro k v p h
      obtain ⟨k0, v0⟩ := q
      by_cases hk : k0 = k
      · subst hk
        simp only [alSet, if_pos rfl] at h
        rcases List.mem_cons.mp h with h1 | h2
        · exact Or.inl h1
        · exact Or.inr (List.mem_cons_of_mem _ h2)
      · simp only [alSet, if_neg hk] at h
        rcases List.mem_cons.mp h with h1 | h2
        · exact Or.inr (h1 ▸ List.mem_cons_self _ _)
        · rcases ih k v p h2 with h3 | h4
          · exact Or.inl h3
          · exact Or.inr (List.mem_cons_of_mem _ h4)

theorem degOf_alSet_self (deg : List (String × Int)) (c : String) (d : Int) :
    degOf (alSet deg c d) c = d := by
  simp [degOf, alGet_alSet_self]

theorem degOf_alSet_ne (deg : List (String × Int)) (c n : String) (d : Int)
    (h : n ≠ c) : degOf (alSet deg c d) n = degOf deg n := by
  simp [degOf, alGet_alSet_ne _ _ _ _ h]

/-! Order facts for the lexicographic comparator. -/

theorem listCharLt_asymm :
    ∀ (a b : List Char), listCharLt a b = true → listCharLt b a = false := by
  intro a
  induction a with
  | nil =>
      intro b h
      cases b with
      | nil => simp [listCharLt] at h
      | cons c cs => simp [listCharLt]
  | cons x xs ih =>
      intro b h
      cases b with
      | nil => simp [listCharLt] at h
      | cons y ys =>
          by_cases hxy : x = y
          · subst hxy
            simp only [listCharLt, if_pos rfl] at h ⊢
            exact ih ys h
          · simp only [listCharLt, if_neg hxy] at h
            have hlt : x < y := of_decide_eq_true h
            have hyx : ¬ y = x := fun hh => hxy hh.symm
            simp only [listCharLt, if_neg hyx]
            exact decide_eq_false (lt_asymm hlt)

theorem listCharLt_trans :
    ∀ (a b c : List Char), listCharLt a b = true → listCharLt b c = true →
      listCharLt a c = true := by
  intro a
  induction a with
  | nil =>
      intro b c hab hbc
      cases b with
      | nil => simp [listCharLt] at hab
      | cons y ys =>
          cases c with
          | nil => simp [listCharLt] at hbc
          | cons z zs => simp [listCharLt]
  | cons x xs ih =>
      intro b c hab hbc
      cases b with
      | nil => simp [listCharLt] at hab
      | cons y ys =>
          cases c with
          | nil => simp [listCharLt] at hbc
          | cons z zs =>
              by_cases hxy : x = y
              · subst hxy
                simp only [listCharLt, if_pos rfl] at hab
                by_cases hyz : x = z
                · subst hyz
                  simp only [listCharLt, if_pos rfl] at hbc ⊢
                  exact ih ys zs hab hbc
                · simp only [listCharLt, if_neg hyz] at hbc ⊢
                  exact hbc
              · simp only [listCharLt, if_neg hxy] at hab
                have hltxy : x < y := of_decide_eq_true hab
                by_cases hyz : y = z
                · subst hyz
                  simp only [listCharLt, if_neg hxy]
                  exact decide_eq_true hltxy
                · simp only [listCharLt, if_neg hyz] at hbc
                  have hltyz : y < z := of_decide_eq_true hbc
                  have hltxz : x < z := lt_trans hltxy hltyz
                  have hxz : ¬ x = z := ne_of_lt hltxz
                  simp only [listCharLt, if_neg hxz]
                  exact decide_eq_true hltxz

theorem strLtB_asymm (a b : String) (h : strLtB a b = true) :
    strLtB b a = false :=
  listCharLt_asymm _ _ h

theorem strLtB_trans (a b c : String) (hab : strLtB a b = true)
    (hbc : strLtB b c = true) : strLtB a c = true :=
  listCharLt_trans _ _ _ hab hbc

theorem insertSortedStr_perm (x : String) :
    ∀ l : List String, (insertSortedStr x l).Perm (x :: l) := by
  intro l
  induction l with
  | nil => simp [insertSortedStr]
  | cons y rest ih =>
      by_cases h : strLtB x y
      · simp [insertSortedStr, h]
      · simp only [insertSortedStr, if_neg h]
        exact (ih.cons y).trans (List.Perm.swap x y rest)

theorem pySortedStrings_perm :
    ∀ l : List String, (pySortedStrings l).Perm l := by
  intro l
  induction l with
  | nil => simp [pySortedStrings]
  | cons x rest ih =>
      have h1 : pySortedStrings (x :: rest) = insertSortedStr x (pySortedStrings rest) := rfl
      rw [h1]
      exact (insertSortedStr_perm x _).trans (ih.cons x)

theorem insertSortedStr_sorted (x : String) :
    ∀ l : List String, l.Pairwise strLe → (insertSortedStr x l).Pairwise strLe := by
  intro l
  induction l with
  | nil => intro _; simp [insertSortedStr, List.Pairwise]
  | cons y rest ih =>
      intro hp
      rcases List.pairwise_cons.mp hp with ⟨hy, hrest⟩
      by_cases h : strLtB x y
      · rw [insertSortedStr, if_pos h]
        refine List.pairwise_cons.mpr ⟨?_, hp⟩
        intro z hz
        rcases List.mem_cons.mp hz with hz1 | hz2
        · subst hz1
          exact strLtB_asymm _ _ h
        · show strLtB z x = false
          by_cases hzx : strLtB z x
          · have hzy : strLtB z y = true := strLtB_trans z x y hzx h
            have := hy z hz2
            rw [this] at hzy
            exact absurd hzy (by simp)
          · simpa using hzx
      · rw [insertSortedStr, if_neg h]
        refine List.pairwise_cons.mpr ⟨?_, ih hrest⟩
        intro z hz
        have hz2 := (insertSortedStr_perm x rest).mem_iff.mp hz
        rcases List.mem_cons.mp hz2 with hz3 | hz4
        · subst hz3
          show strLtB z y = false
          simpa using h
        · exact hy z hz4

theorem pySortedStrings_sorted :
    ∀ l : List String, (pySortedStrings l).Pairwise strLe := by
  intro l
  induction l with
  | nil => simp [pySortedStrings]
  | cons x rest ih => exact insertSortedStr_sorted x _ ih

theorem alGet_of_mem_nodup {α : Type} :
    ∀ (kvs : List (String × α)) (k : String) (v : α),
      (kvs.map Prod.fst).Nodup → (k, v) ∈ kvs → alGet kvs k = some v := by
  intro kvs
  induction kvs with
  | nil => intro k v _ h; simp at h
  | cons p rest ih =>
      intro k v hnd h
      obtain ⟨k0, v0⟩ := p
      rcases List.pairwise_cons.mp hnd with ⟨hk0, hnd2⟩
      rcases List.mem_cons.mp h with h1 | h2
      · rw [Prod.mk.injEq] at h1
        obtain ⟨hk, hv⟩ := h1
        simp [alGet, hk, hv]
      · have hne : k0 ≠ k := by
          intro he
          subst he
          exact (hk0 k0 (List.mem_map.mpr ⟨(k0, v), h2, rfl⟩)) rfl
        simp only [alGet, if_neg hne]
        exact ih k v hnd2 h2

theorem alSet_append_of_not_mem {α : Type} :
    ∀ (kvs : List (String × α)) (k : String) (v : α),
      k ∉ kvs.map Prod.fst → alSet kvs k v = kvs ++ [(k, v)] := by
  intro kvs
  induction kvs with
  | nil => intro k v _; simp [alSet]
  | cons p rest ih =>
      intro k v h
      obtain ⟨k0, v0⟩ := p
      simp only [List.map_cons, List.mem_cons, not_or] at h
      obtain ⟨h1, h2⟩ := h
      have hne : k0 ≠ k := fun he => h1 he.symm
      simp [alSet, hne, ih k v h2]

theorem nameToTable_foldl (tables : List Table) :
    ∀ acc : List (String × Table),
      (tables.map Table.table_name).Nodup →
      (∀ t ∈ tables, t.table_name ∉ acc.map Prod.fst) →
      tables.foldl (fun m t => alSet m t.table_name t) acc
        = acc ++ tables.map (fun t => (t.table_name, t)) := by
  induction tables with
  | nil => intro acc _ _; simp
  | cons t rest ih =>
      intro acc hnd hfr
      rcases List.pairwise_cons.mp hnd with ⟨ht, hnd2⟩
      have hstep : alSet acc t.table_name t = acc ++ [(t.table_name, t)] :=
        alSet_append_of_not_mem acc _ t (hfr t (List.mem_cons_self _ _))
      have hfr2 : ∀ u ∈ rest,
          u.table_name ∉ (acc ++ [(t.table_name, t)]).map Prod.fst := by
        intro u hu
        simp only [List.map_append, List.mem_append, List.map_cons, List.map_nil,
          List.mem_singleton, not_or]
        refine ⟨hfr u (List.mem_cons_of_mem _ hu), ?_⟩
        intro he
        exact (ht u.table_name (List.mem_map.mpr ⟨u, hu, rfl⟩)) he.symm
      simp only [List.foldl_cons, hstep, ih _ hnd2 hfr2, List.append_assoc,
        List.map_cons, List.singleton_append]

theorem nameToTable_eq (tables : List Table)
    (hnd : (tables.map Table.table_name).Nodup) :
    nameToTable tables = tables.map (fun t => (t.table_name, t)) := by
  have h := nameToTable_foldl tables [] hnd (by intro t _; simp)
  simpa [nameToTable] using h

theorem filterMap_congr_on {α β : Type} :
    ∀ (l : List α) (f g : α → Option β), (∀ x ∈ l, f x = g x) →
      l.filterMap f = l.filterMap g := by
  intro l
  induction l with
  | nil => intro f g _; rfl
  | cons x rest ih =>
      intro f g h
      have hx := h x (List.mem_cons_self _ _)
      have hrest := ih f g (fun y hy => h y (List.mem_cons_of_mem _ hy))
      cases hfx : f x with
      | none =>
          have hgx : g x = none := hx ▸ hfx
          simp [List.filterMap_cons, hfx, hgx, hrest]
      | some b =>
          have hgx : g x = some b := hx ▸ hfx
          simp [List.filterMap_cons, hfx, hgx, hrest]

theorem filterMap_alGet_names (tables : List Table)
    (hnd : (tables.map Table.table_name).Nodup) :
    (tables.map Table.table_name).filterMap
        (alGet (tables.map (fun t => (t.table_name, t)))) = tables := by
  induction tables with
  | nil => rfl
  | cons t rest ih =>
      rcases List.pairwise_cons.mp hnd with ⟨ht, hnd2⟩
      have hhead : alGet ((t.table_name, t) :: rest.map (fun u => (u.table_name, u)))
          t.table_name = some t := by
        simp [alGet]
      have hcongr : ∀ x ∈ rest.map Table.table_name,
          alGet ((t.table_name, t) :: rest.map (fun u => (u.table_name, u))) x
            = alGet (rest.map (fun u => (u.table_name, u))) x := by
        intro x hx
        have hne : t.table_name ≠ x := ht x hx
        simp [alGet, hne]
      simp only [List.map_cons, List.filterMap_cons, hhead]
      rw [filterMap_congr_on _ _ _ hcongr, ih hnd2]

theorem fieldParentIntel_ok (names : List String) (child : String) (f : Row)
    (hok : refOkB f = true) :
    ∃ o, fieldParentIntel names child f = .ok o ∧
      ∀ p, o = some p → p ∈ names := by
  unfold fieldParentIntel
  unfold refOkB at hok
  cases href : dictGet f "references" with
  | none => exact ⟨none, rfl, by simp⟩
  | some refV =>
      simp only [href] at hok
      cases htr : truthy refV with
      | false => exact ⟨none, by simp [htr], by simp⟩
      | true =>
          rw [htr] at hok
          simp only [Bool.not_true, Bool.false_or] at hok
          cases refV with
          | obj ref =>
              simp only [htr, Bool.not_true]
              rw [if_neg Bool.false_ne_true]
              cases htab : dictGet ref "table" with
              | none => exact ⟨none, rfl, by simp⟩
              | some tv =>
                  cases tv with
                  | str p =>
                      by_cases hc : (p ≠ "" && names.contains p && p ≠ child) = true
                      · refine ⟨some p, ?_, ?_⟩
                        · show (if (p ≠ "" && names.contains p && p ≠ child) = true
                              then (Except.ok (some p) : Except String (Option String))
                              else .ok none) = .ok (some p)
                          rw [if_pos hc]
                        · intro p2 hp2
                          rw [Option.some.inj hp2] at hc
                          simp only [Bool.and_eq_true, decide_eq_true_eq] at hc
                          simpa using hc.1.2
                      · refine ⟨none, ?_, by simp⟩
                        show (if (p ≠ "" && names.contains p && p ≠ child) = true
                            then (Except.ok (some p) : Except String (Option String))
                            else .ok none) = .ok none
                        rw [if_neg hc]
                  | null => exact ⟨none, rfl, by simp⟩
                  | bool b => exact ⟨none, rfl, by simp⟩
                  | num q => exact ⟨none, rfl, by simp⟩
                  | arr xs => exact ⟨none, rfl, by simp⟩
                  | obj kvs => exact ⟨none, rfl, by simp⟩
          | null => simp at hok
          | bool b => simp at hok
          | num q => simp at hok
          | str s => simp at hok
          | arr xs => simp at hok

theorem buildGraphFields_inv (names : List String) (child : String)
    (hchild : child ∈ names) :
    ∀ (fs : List Row) (ptc : List (String × List String))
      (indeg : List (String × Int)),
      (∀ f ∈ fs, refOkB f = true) →
      ptc.map Prod.fst = names →
      indeg.map Prod.fst = names →
      (∀ p ∈ ptc, ∀ c ∈ p.2, c ∈ names) →
      (∀ p ∈ indeg, 0 ≤ p.2) →
      ∃ ptc2 indeg2,
        buildGraphFields names child fs (ptc, indeg) = .ok (ptc2, indeg2) ∧
        ptc2.map Prod.fst = names ∧ indeg2.map Prod.fst = names ∧
        (∀ p ∈ ptc2, ∀ c ∈ p.2, c ∈ names) ∧ (∀ p ∈ indeg2, 0 ≤ p.2) := by
  intro fs
  induction fs with
  | nil =>
      intro ptc indeg _ h1 h2 h3 h4
      exact ⟨ptc, indeg, rfl, h1, h2, h3, h4⟩
  | cons f fs ih =>
      intro ptc indeg hok h1 h2 h3 h4
      obtain ⟨o, ho, hp⟩ :=
        fieldParentIntel_ok names child f (hok f (List.mem_cons_self _ _))
      have hok2 : ∀ g ∈ fs, refOkB g = true :=
        fun g hg => hok g (List.mem_cons_of_mem _ hg)
      cases o with
      | none =>
          obtain ⟨p2, i2, hrun, ha, hb, hc, hd⟩ := ih ptc indeg hok2 h1 h2 h3 h4
          refine ⟨p2, i2, ?_, ha, hb, hc, hd⟩
          simp only [buildGraphFields, ho]
          exact hrun
      | some parent =>
          have hpar : parent ∈ names := hp parent rfl
          have hparkey : parent ∈ ptc.map Prod.fst := h1 ▸ hpar
          have hsome : (alGet ptc parent).isSome :=
            (alGet_isSome_iff ptc parent).mpr hparkey
          cases hg : alGet ptc parent with
          | none => rw [hg] at hsome; simp at hsome
          | some chs =>
              have hchs : (parent, chs) ∈ ptc := alGet_eq_some_mem ptc parent chs hg
              have hptc2keys :
                  (addChildEdge ptc parent child).map Prod.fst = names := by
                simp only [addChildEdge, hg]
                by_cases hcc : chs.contains child = true
                · rw [if_pos hcc]
                  exact h1
                · rw [if_neg hcc]
                  rw [alSet_map_fst_of_mem ptc parent _ hparkey]
                  exact h1
              have hptc2ch :
                  ∀ p ∈ addChildEdge ptc parent child, ∀ c ∈ p.2, c ∈ names := by
                simp only [addChildEdge, hg]
                by_cases hcc : chs.contains child = true
                · rw [if_pos hcc]
                  exact h3
                · rw [if_neg hcc]
                  intro p hpm c hcm
                  rcases mem_alSet ptc parent (chs ++ [child]) p hpm with he | hin
                  · subst he
                    rcases List.mem_append.mp hcm with hl | hr
                    · exact h3 (parent, chs) hchs c hl
                    · rw [List.mem_singleton.mp hr]; exact hchild
                  · exact h3 p hin c hcm
              have hchkey : child ∈ indeg.map Prod.fst := h2 ▸ hchild
              have hideg2keys :
                  (alSet indeg child ((alGet indeg child).getD 0 + 1)).map Prod.fst
                    = names := by
                rw [alSet_map_fst_of_mem indeg child _ hchkey]
                exact h2
              have hideg2pos :
                  ∀ p ∈ alSet indeg child ((alGet indeg child).getD 0 + 1),
                    0 ≤ p.2 := by
                intro p hpm
                rcases mem_alSet indeg child _ p hpm with he | hin
                · subst he
                  show (0 : Int) ≤ (alGet indeg child).getD 0 + 1
                  cases hgi : alGet indeg child with
                  | none => simp
                  | some v =>
                      have hv : 0 ≤ v :=
                        h4 (child, v) (alGet_eq_some_mem indeg child v hgi)
                      simp only [Option.getD_some]
                      omega
                · exact h4 p hin
              obtain ⟨p2, i2, hrun, ha, hb, hc, hd⟩ :=
                ih (addChildEdge ptc parent child)
                   (alSet indeg child ((alGet indeg child).getD 0 + 1))
                   hok2 hptc2keys hideg2keys hptc2ch hideg2pos
              refine ⟨p2, i2, ?_, ha, hb, hc, hd⟩
              simp only [buildGraphFields, ho]
              exact hrun

theorem buildGraph_inv (names : List String) :
    ∀ (ts : List Table) (ptc : List (String × List String))
      (indeg : List (String × Int)),
      (∀ t ∈ ts, t.table_name ∈ names) →
      (∀ t ∈ ts, ∀ f ∈ t.fields, refOkB f = true) →
      ptc.map Prod.fst = names →
      indeg.map Prod.fst = names →
      (∀ p ∈ ptc, ∀ c ∈ p.2, c ∈ names) →
      (∀ p ∈ indeg, 0 ≤ p.2) →
      ∃ ptc2 indeg2,
        buildGraph names ts (ptc, indeg) = .ok (ptc2, indeg2) ∧
        ptc2.map Prod.fst = names ∧ indeg2.map Prod.fst = names ∧
        (∀ p ∈ ptc2, ∀ c ∈ p.2, c ∈ names) ∧ (∀ p ∈ indeg2, 0 ≤ p.2) := by
  intro ts
  induction ts with
  | nil =>
      intro ptc indeg _ _ h1 h2 h3 h4
      exact ⟨ptc, indeg, rfl, h1, h2, h3, h4⟩
  | cons t ts ih =>
      intro ptc indeg hmem hok h1 h2 h3 h4
      obtain ⟨p2, i2, hrun, ha, hb, hc, hd⟩ :=
        buildGraphFields_inv names t.table_name
          (hmem t (List.mem_cons_self _ _)) t.fields ptc indeg
          (hok t (List.mem_cons_self _ _)) h1 h2 h3 h4
      obtain ⟨p3, i3, hrun2, ha2, hb2, hc2, hd2⟩ :=
        ih p2 i2 (fun u hu => hmem u (List.mem_cons_of_mem _ hu))
          (fun u hu => hok u (List.mem_cons_of_mem _ hu)) ha hb hc hd
      refine ⟨p3, i3, ?_, ha2, hb2, hc2, hd2⟩
      simp only [buildGraph, hrun]
      exact hrun2

theorem processChildren_inv (names : List String) (order : List String) :
    ∀ (children : List String) (deg : List (String × Int)) (q : List String),
      (∀ c ∈ children, c ∈ names) →
      deg.map Prod.fst = names →
      q.Nodup →
      (∀ n ∈ q, n ∉ order) →
      (∀ n ∈ q, n ∈ names) →
      (∀ n ∈ names, n ∈ order ∨ n ∈ q ∨ 0 < degOf deg n) →
      (∀ n, n ∈ order ∨ n ∈ q → degOf deg n ≤ 0) →
      ((processChildren children deg q).1.map Prod.fst = names ∧
       (processChildren children deg q).2.Nodup ∧
       (∀ n ∈ (processChildren children deg q).2, n ∉ order) ∧
       (∀ n ∈ (processChildren children deg q).2, n ∈ names) ∧
       (∀ n ∈ names, n ∈ order ∨ n ∈ (processChildren children deg q).2 ∨
          0 < degOf (processChildren children deg q).1 n) ∧
       (∀ n, n ∈ order ∨ n ∈ (processChildren children deg q).2 →
          degOf (processChildren children deg q).1 n ≤ 0)) := by
  intro children
  induction children with
  | nil =>
      intro deg q _ h1 h2 h3 h4 h5 h6
      exact ⟨h1, h2, h3, h4, h5, h6⟩
  | cons c cs ih =>
      intro deg q hch h1 h2 h3 h4 h5 h6
      have hcnm : c ∈ names := hch c (List.mem_cons_self _ _)
      have hckey : c ∈ deg.map Prod.fst := h1 ▸ hcnm
      have hdg : (alGet deg c).getD 0 = degOf deg c := rfl
      have heq : processChildren (c :: cs) deg q
          = processChildren cs (alSet deg c (degOf deg c - 1))
              (if (degOf deg c - 1) = 0 then q ++ [c] else q) := rfl
      rw [heq]
      have hkeys2 : (alSet deg c (degOf deg c - 1)).map Prod.fst = names := by
        rw [alSet_map_fst_of_mem deg c _ hckey]; exact h1
      have hch2 : ∀ x ∈ cs, x ∈ names := fun x hx => hch x (List.mem_cons_of_mem _ hx)
      by_cases hd : (degOf deg c - 1) = 0
      · rw [if_pos hd]
        have hcpos : 0 < degOf deg c := by omega
        have hcq : c ∉ q := by
          intro hq
          have := h6 c (Or.inr hq)
          omega
        have hcord : c ∉ order := by
          intro ho
          have := h6 c (Or.inl ho)
          omega
        refine ih (alSet deg c (degOf deg c - 1)) (q ++ [c]) hch2 hkeys2 ?_ ?_ ?_ ?_ ?_
        · rw [List.nodup_append]
          exact ⟨h2, List.nodup_singleton c,
            fun a ha hb => hcq (by rwa [List.mem_singleton.mp hb] at ha)⟩
        · intro m hm
          rcases List.mem_append.mp hm with hm1 | hm2
          · exact h3 m hm1
          · rw [List.mem_singleton.mp hm2]; exact hcord
        · intro m hm
          rcases List.mem_append.mp hm with hm1 | hm2
          · exact h4 m hm1
          · rw [List.mem_singleton.mp hm2]; exact hcnm
        · intro m hmn
          rcases h5 m hmn with ho | hq | hdeg
          · exact Or.inl ho
          · exact Or.inr (Or.inl (List.mem_append.mpr (Or.inl hq)))
          · by_cases hmc : m = c
            · exact Or.inr (Or.inl (List.mem_append.mpr (Or.inr (by simp [hmc]))))
            · rw [← degOf_alSet_ne deg c m (degOf deg c - 1) hmc] at hdeg
              exact Or.inr (Or.inr hdeg)
        · intro m hm
          by_cases hmc : m = c
          · rw [hmc, degOf_alSet_self]
            omega
          · rw [degOf_alSet_ne deg c m _ hmc]
            rcases hm with ho | hq
            · exact h6 m (Or.inl ho)
            · rcases List.mem_append.mp hq with hq1 | hq2
              · exact h6 m (Or.inr hq1)
              · exact absurd (List.mem_singleton.mp hq2) hmc
      · rw [if_neg hd]
        refine ih (alSet deg c (degOf deg c - 1)) q hch2 hkeys2 h2 h3 h4 ?_ ?_
        · intro m hmn
          rcases h5 m hmn with ho | hq | hdeg
          · exact Or.inl ho
          · exact Or.inr (Or.inl hq)
          · by_cases hmc : m = c
            · subst hmc
              rw [degOf_alSet_self]
              exact Or.inr (Or.inr (by omega))
            · rw [← degOf_alSet_ne deg c m (degOf deg c - 1) hmc] at hdeg
              exact Or.inr (Or.inr hdeg)
        · intro m hm
          by_cases hmc : m = c
          · subst hmc
            rw [degOf_alSet_self]
            have := h6 m hm
            omega
          · rw [degOf_alSet_ne deg c m _ hmc]
            exact h6 m hm

theorem kahnLoop_inv (ptc : List (String × List String)) (names : List String)
    (hnn : names.Nodup)
    (hptc : ∀ p ∈ ptc, ∀ c ∈ p.2, c ∈ names) :
    ∀ (fuel : Nat) (deg : List (String × Int)) (q order : List String),
      deg.map Prod.fst = names →
      order.Nodup → q.Nodup →
      (∀ n ∈ q, n ∉ order) →
      (∀ n ∈ order, n ∈ names) →
      (∀ n ∈ q, n ∈ names) →
      (∀ n ∈ names, n ∈ order ∨ n ∈ q ∨ 0 < degOf deg n) →
      (∀ n, n ∈ order ∨ n ∈ q → degOf deg n ≤ 0) →
      names.length ≤ fuel + order.length →
      ((kahnLoop ptc fuel deg q order).1.map Prod.fst = names ∧
       (kahnLoop ptc fuel deg q order).2.Nodup ∧
       (∀ n ∈ (kahnLoop ptc fuel deg q order).2, n ∈ names) ∧
       (∀ n ∈ names, n ∈ (kahnLoop ptc fuel deg q order).2 ∨
          0 < degOf (kahnLoop ptc fuel deg q order).1 n) ∧
       (∀ n ∈ (kahnLoop ptc fuel deg q order).2,
          degOf (kahnLoop ptc fuel deg q order).1 n ≤ 0)) := by
  intro fuel
  induction fuel with
  | zero =>
      intro deg q order h1 h2 h3 h4 h5 h6 h7 h8 hlen
      have hres : kahnLoop ptc 0 deg q order = (deg, order) := rfl
      rw [hres]
      have hsub : order.toFinset ⊆ names.toFinset := by
        intro m hm
        exact List.mem_toFinset.mpr (h5 m (List.mem_toFinset.mp hm))
      have hcard : names.toFinset.card ≤ order.toFinset.card := by
        rw [List.toFinset_card_of_nodup h2, List.toFinset_card_of_nodup hnn]
        simpa using hlen
      have hfeq : order.toFinset = names.toFinset :=
        Finset.eq_of_subset_of_card_le hsub hcard
      have hcover : ∀ m ∈ names, m ∈ order := by
        intro m hm
        have : m ∈ names.toFinset := List.mem_toFinset.mpr hm
        rw [← hfeq] at this
        exact List.mem_toFinset.mp this
      refine ⟨h1, h2, h5, ?_, ?_⟩
      · intro m hm
        exact Or.inl (hcover m hm)
      · intro m hm
        exact h8 m (Or.inl hm)
  | succ fuel ih =>
      intro deg q order h1 h2 h3 h4 h5 h6 h7 h8 hlen
      cases q with
      | nil =>
          have hres : kahnLoop ptc (fuel + 1) deg [] order = (deg, order) := rfl
          rw [hres]
          refine ⟨h1, h2, h5, ?_, ?_⟩
          · intro m hm
            rcases h7 m hm with ho | hq | hdeg
            · exact Or.inl ho
            · exact absurd hq (List.not_mem_nil m)
            · exact Or.inr hdeg
          · intro m hm
            exact h8 m (Or.inl hm)
      | cons n q2 =>
          have hres : kahnLoop ptc (fuel + 1) deg (n :: q2) order
              = kahnLoop ptc fuel
                  (processChildren ((alGet ptc n).getD []) deg q2).1
                  (processChildren ((alGet ptc n).getD []) deg q2).2
                  (order ++ [n]) := rfl
          rw [hres]
          rcases List.nodup_cons.mp h3 with ⟨hnq2, hq2nd⟩
          have hnord : n ∉ order := h4 n (List.mem_cons_self _ _)
          have hnnm : n ∈ names := h6 n (List.mem_cons_self _ _)
          have hch : ∀ c ∈ (alGet ptc n).getD [], c ∈ names := by
            cases hg : alGet ptc n with
            | none => simp
            | some chs =>
                simp only [Option.getD_some]
                exact hptc (n, chs) (alGet_eq_some_mem ptc n chs hg)
          obtain ⟨P1, P2, P3, P4, P5, P6⟩ :=
            processChildren_inv names (order ++ [n]) ((alGet ptc n).getD []) deg q2
              hch h1 hq2nd
              (by
                intro m hm
                intro hmm
                rcases List.mem_append.mp hmm with hm1 | hm2
                · exact h4 m (List.mem_cons_of_mem _ hm) hm1
                · exact hnq2 ((List.mem_singleton.mp hm2) ▸ hm))
              (fun m hm => h6 m (List.mem_cons_of_mem _ hm))
              (by
                intro m hmn
                rcases h7 m hmn with ho | hq | hdeg
                · exact Or.inl (List.mem_append.mpr (Or.inl ho))
                · rcases List.mem_cons.mp hq with hq1 | hq2
                  · exact Or.inl (List.mem_append.mpr (Or.inr (by simp [hq1])))
                  · exact Or.inr (Or.inl hq2)
                · exact Or.inr (Or.inr hdeg))
              (by
                intro m hm
                rcases hm with ho | hq
                · rcases List.mem_append.mp ho with ho1 | ho2
                  · exact h8 m (Or.inl ho1)
                  · exact h8 m (Or.inr (by simp [List.mem_singleton.mp ho2]))
                · exact h8 m (Or.inr (List.mem_cons_of_mem _ hq)))
          refine ih _ _ (order ++ [n]) P1 ?_ P2 P3 ?_ P4 P5 P6 ?_
          · rw [List.nodup_append]
            exact ⟨h2, List.nodup_singleton n,
              fun a ha hb => hnord ((List.mem_singleton.mp hb) ▸ ha)⟩
          · intro m hm
            rcases List.mem_append.mp hm with hm1 | hm2
            · exact h5 m hm1
            · exact (List.mem_singleton.mp hm2) ▸ hnnm
          · simp only [List.length_append, List.length_singleton]
            omega

theorem mem_filter_map_fst (deg : List (String × Int))
    (hkeys : (deg.map Prod.fst).Nodup) (f : String × Int → Bool) (n : String) :
    n ∈ (deg.filter f).map Prod.fst ↔ ∃ v, alGet deg n = some v ∧ f (n, v) = true := by
  constructor
  · intro h
    rcases List.mem_map.mp h with ⟨p, hp, hfst⟩
    rcases List.mem_filter.mp hp with ⟨hpd, hfp⟩
    refine ⟨p.2, ?_, ?_⟩
    · exact alGet_of_mem_nodup deg n p.2 hkeys (by rwa [← hfst])
    · rwa [← hfst]
  · rintro ⟨v, hg, hf⟩
    have hmem : (n, v) ∈ deg := alGet_eq_some_mem deg n v hg
    exact List.mem_map.mpr ⟨(n, v), List.mem_filter.mpr ⟨hmem, hf⟩, rfl⟩

theorem foldl_dedup_append :
    ∀ (ls acc : List String), (∀ n ∈ ls, n ∉ acc) → ls.Nodup →
      ls.foldl (fun a n => if a.contains n then a else a ++ [n]) acc = acc ++ ls := by
  intro ls
  induction ls with
  | nil => intro acc _ _; simp
  | cons n ls ih =>
      intro acc hfr hnd
      rcases List.nodup_cons.mp hnd with ⟨hn, hnd2⟩
      have hc : ¬ acc.contains n = true := by
        intro hc
        exact (hfr n (List.mem_cons_self _ _)) (by simpa using hc)
      rw [List.foldl_cons, if_neg hc]
      have hfr2 : ∀ m ∈ ls, m ∉ acc ++ [n] := by
        intro m hm hmm
        rcases List.mem_append.mp hmm with h1 | h2
        · exact hfr m (List.mem_cons_of_mem _ hm) h1
        · exact hn ((List.mem_singleton.mp h2) ▸ hm)
      rw [ih (acc ++ [n]) hfr2 hnd2]
      simp

/-- Claim C1 counterexample: the DFS sequencer of `db_generator.py` cited
by the claim raises `ValueError("Circular dependency detected for table:
x")` on the two-table cycle `x ↔ y` instead of completing the sequence:
the claimed "does not fail" policy does not hold for this implementation. -/
theorem C1_counterexample :
    topo_sort_tables_dfs [tabX, tabY]
      = .error "Circular dependency detected for table: x" := rfl

/-- Claim C1: for every table list with distinct names and well-formed
`references` entries (cyclic graphs included), the Kahn-based sequencer of
`intelligent_db_generator.py` does not fail: it returns an order containing
every input table exactly once (a permutation of the input), whose name
order is the drained Kahn order followed by exactly the lexically sorted
`remaining` names (the tables left with positive in-degree, whose
nonemptiness triggers the diagnostic), with no duplicates. -/
theorem C1_theorem (tables : List Table)
    (hnd : (tables.map Table.table_name).Nodup)
    (hwf : wellFormedRefs tables = true) :
    ∃ r kahnPart,
      topo_sort_tables_intel tables = .ok r ∧
      r.order.Perm tables ∧
      r.order_names = kahnPart ++ pySortedStrings r.remaining ∧
      (∀ n ∈ r.remaining, n ∉ kahnPart) ∧
      (pySortedStrings r.remaining).Pairwise strLe ∧
      r.order_names.Nodup := by
  have hntt : nameToTable tables = tables.map (fun t => (t.table_name, t)) :=
    nameToTable_eq tables hnd
  have hnames : (nameToTable tables).map (fun p => p.1) = tables.map Table.table_name := by
    rw [hntt, List.map_map]
    rfl
  have hknd : ((nameToTable tables).map (fun p => p.1)).Nodup := by
    rw [hnames]; exact hnd
  have hok : ∀ t ∈ tables, ∀ f ∈ t.fields, refOkB f = true := by
    intro t ht f hf
    unfold wellFormedRefs at hwf
    exact List.all_eq_true.mp ((List.all_eq_true.mp hwf) t ht) f hf
  obtain ⟨ptc, indeg, hbg, hB1, hB2, hB3, hB4⟩ :=
    buildGraph_inv ((nameToTable tables).map (fun p => p.1)) tables
      (((nameToTable tables).map (fun p => p.1)).map (fun n => (n, [])))
      (((nameToTable tables).map (fun p => p.1)).map (fun n => (n, 0)))
      (by
        intro t ht
        rw [hnames]
        exact List.mem_map.mpr ⟨t, ht, rfl⟩)
      hok
      (by simp)
      (by simp)
      (by
        intro p hp c hc
        rcases List.mem_map.mp hp with ⟨m, _, he⟩
        rw [← he] at hc
        simp at hc)
      (by
        intro p hp
        rcases List.mem_map.mp hp with ⟨m, _, he⟩
        rw [← he])
  have hrun : topo_sort_tables_intel tables = Except.ok
      ⟨(((pySortedStrings
            (((kahnLoop ptc
                (((nameToTable tables).map (fun p => p.1)).length + edgeCount ptc + 1)
                indeg ((indeg.filter (fun p => p.2 = 0)).map (fun p => p.1)) []).1.filter
                  (fun p => 0 < p.2)).map (fun p => p.1))).foldl
          (fun acc n => if acc.contains n then acc else acc ++ [n])
          (kahnLoop ptc
            (((nameToTable tables).map (fun p => p.1)).length + edgeCount ptc + 1)
            indeg ((indeg.filter (fun p => p.2 = 0)).map (fun p => p.1)) []).2).filterMap
            (alGet (nameToTable tables))),
        ((pySortedStrings
            (((kahnLoop ptc
                (((nameToTable tables).map (fun p => p.1)).length + edgeCount ptc + 1)
                indeg ((indeg.filter (fun p => p.2 = 0)).map (fun p => p.1)) []).1.filter
                  (fun p => 0 < p.2)).map (fun p => p.1))).foldl
          (fun acc n => if acc.contains n then acc else acc ++ [n])
          (kahnLoop ptc
            (((nameToTable tables).map (fun p => p.1)).length + edgeCount ptc + 1)
            indeg ((indeg.filter (fun p => p.2 = 0)).map (fun p => p.1)) []).2),
        (((kahnLoop ptc
            (((nameToTable tables).map (fun p => p.1)).length + edgeCount ptc + 1)
            indeg ((indeg.filter (fun p => p.2 = 0)).map (fun p => p.1)) []).1.filter
              (fun p => 0 < p.2)).map (fun p => p.1))⟩ := by
    unfold topo_sort_tables_intel
    simp only [hbg]
  set NM := (nameToTable tables).map (fun p => (p : String × Table).1) with hNM
  set FN := NM.length + edgeCount ptc + 1 with hFN
  set q0 := (indeg.filter (fun p => p.2 = 0)).map
    (fun p => (p : String × Int).1) with hq0
  have hiknd : (indeg.map Prod.fst).Nodup := by rw [hB2]; exact hknd
  obtain ⟨K1, K2, K3, K4, K5⟩ :=
    kahnLoop_inv ptc NM hknd hB3 FN indeg q0 []
      hB2
      List.nodup_nil
      (by
        rw [hq0]
        exact hiknd.sublist ((List.filter_sublist indeg).map Prod.fst))
      (fun n _ h => absurd h (List.not_mem_nil n))
      (by simp)
      (by
        intro n hn
        rw [hq0] at hn
        rcases (mem_filter_map_fst indeg hiknd _ n).mp hn with ⟨v, hg, _⟩
        have : n ∈ indeg.map Prod.fst :=
          (alGet_isSome_iff indeg n).mp (by rw [hg]; rfl)
        rwa [hB2] at this)
      (by
        intro n hn
        have hkey : n ∈ indeg.map Prod.fst := by rw [hB2]; exact hn
        have hsome := (alGet_isSome_iff indeg n).mpr hkey
        cases hg : alGet indeg n with
        | none => rw [hg] at hsome; simp at hsome
        | some v =>
            have hv : 0 ≤ v := hB4 (n, v) (alGet_eq_some_mem indeg n v hg)
            by_cases hv0 : v = 0
            · refine Or.inr (Or.inl ?_)
              rw [hq0]
              exact (mem_filter_map_fst indeg hiknd _ n).mpr ⟨v, hg, by simp [hv0]⟩
            · refine Or.inr (Or.inr ?_)
              show (0 : Int) < (alGet indeg n).getD 0
              rw [hg]
              simp only [Option.getD_some]
              omega)
      (by
        intro n hn
        rcases hn with hn | hn
        · exact absurd hn (List.not_mem_nil n)
        · rw [hq0] at hn
          rcases (mem_filter_map_fst indeg hiknd _ n).mp hn with ⟨v, hg, hf⟩
          have hv : v = 0 := by simpa using hf
          show (alGet indeg n).getD 0 ≤ 0
          rw [hg, hv]
          rfl)
      (by rw [hFN]; omega)
  set KL := kahnLoop ptc FN indeg q0 [] with hKL
  set R := (KL.1.filter (fun p => 0 < p.2)).map
    (fun p => (p : String × Int).1) with hR
  have hFDnd : (KL.1.map Prod.fst).Nodup := by rw [K1]; exact hknd
  have hremchar : ∀ n, n ∈ R ↔ ∃ v, alGet KL.1 n = some v ∧ 0 < v := by
    intro n
    rw [hR]
    constructor
    · intro h
      rcases (mem_filter_map_fst _ hFDnd _ n).mp h with ⟨v, hg, hf⟩
      exact ⟨v, hg, by simpa using hf⟩
    · rintro ⟨v, hg, hv⟩
      exact (mem_filter_map_fst _ hFDnd _ n).mpr ⟨v, hg, by simpa using hv⟩
  have hremnd : R.Nodup := by
    rw [hR]
    exact hFDnd.sublist ((List.filter_sublist _).map Prod.fst)
  have hremko : ∀ n ∈ R, n ∉ KL.2 := by
    intro n hn hko
    rcases (hremchar n).mp hn with ⟨v, hg, hv⟩
    have := K5 n hko
    rw [degOf, hg] at this
    simp only [Option.getD_some] at this
    omega
  have hremnames : ∀ n ∈ R, n ∈ NM := by
    intro n hn
    rcases (hremchar n).mp hn with ⟨v, hg, _⟩
    have : n ∈ KL.1.map Prod.fst :=
      (alGet_isSome_iff _ n).mp (by rw [hg]; rfl)
    rwa [K1] at this
  have hcov2 : ∀ n ∈ NM, n ∈ KL.2 ∨ n ∈ R := by
    intro n hn
    rcases K4 n hn with hko | hdeg
    · exact Or.inl hko
    · refine Or.inr ((hremchar n).mpr ?_)
      cases hg : alGet KL.1 n with
      | none =>
          rw [degOf, hg] at hdeg
          simp at hdeg
      | some v =>
          rw [degOf, hg] at hdeg
          simp only [Option.getD_some] at hdeg
          exact ⟨v, rfl, hdeg⟩
  set S := pySortedStrings R with hS
  have hsp : S.Perm R := pySortedStrings_perm R
  have hsnd : S.Nodup := (hsp.nodup_iff).mpr hremnd
  have hsko : ∀ n ∈ S, n ∉ KL.2 := fun n h => hremko n (hsp.mem_iff.mp h)
  have hfold := foldl_dedup_append S KL.2 hsko hsnd
  rw [hfold] at hrun
  have hordnd : (KL.2 ++ S).Nodup := by
    rw [List.nodup_append]
    exact ⟨K2, hsnd, fun a ha hb => hsko a hb ha⟩
  have hperm2 : (KL.2 ++ R).Perm NM := by
    apply List.perm_of_nodup_nodup_toFinset_eq
    · rw [List.nodup_append]
      exact ⟨K2, hremnd, fun a ha hb => hremko a hb ha⟩
    · exact hknd
    · apply Finset.ext
      intro m
      rw [List.mem_toFinset, List.mem_toFinset, List.mem_append]
      constructor
      · intro h
        rcases h with h | h
        · exact K3 m h
        · exact hremnames m h
      · intro h
        exact hcov2 m h
  have hperm : (KL.2 ++ S).Perm NM := (hsp.append_left _).trans hperm2
  have horder : ((KL.2 ++ S).filterMap (alGet (nameToTable tables))).Perm tables := by
    refine (hperm.filterMap (alGet (nameToTable tables))).trans ?_
    show (List.filterMap (alGet (nameToTable tables)) NM).Perm tables
    rw [hnames, hntt, filterMap_alGet_names tables hnd]
  exact ⟨⟨(KL.2 ++ S).filterMap (alGet (nameToTable tables)), KL.2 ++ S, R⟩, KL.2,
    hrun, horder, rfl, hremko, pySortedStrings_sorted _, hordnd⟩

/-- Claim C1 witness: the amended theorem applied to the three-table cycle
of scenario D (`tA → tB → tC → tA`), whose names are distinct and whose
`references` entries are well formed. -/
theorem C1_witness :
    ([tabDA, tabDB, tabDC].map Table.table_name).Nodup ∧
    wellFormedRefs [tabDA, tabDB, tabDC] = true ∧
    (∃ r kahnPart,
      topo_sort_tables_intel [tabDA, tabDB, tabDC] = .ok r ∧
      r.order.Perm [tabDA, tabDB, tabDC] ∧
      r.order_names = kahnPart ++ pySortedStrings r.remaining ∧
      (∀ n ∈ r.remaining, n ∉ kahnPart) ∧
      (pySortedStrings r.remaining).Pairwise strLe ∧
      r.order_names.Nodup) :=
  ⟨by decide, rfl, C1_theorem [tabDA, tabDB, tabDC] (by decide) rfl⟩

end GenData
